import Mathlib

/-
Verification of the rust-nebula client library: a shallow embedding, in Lean 4,
of the data model and operations of the library (graph sessions, round-robin
host selection, meta cache loading, storage scan fan-out, dataset wrapping),
together with theorems settling the stated properties.

Conventions of the embedding:
- Rust byte strings (Vec<u8>) are `List Nat`.
- Machine integers (i64, i32, i16, i8) are `Int`; no modelled operation
  overflows, so no wrap-around modelling is required.
- Fallible Rust code returning Result is `Except`.
- A Rust panic (out-of-range index, Option::unwrap on None, todo!) is modelled
  by an outer `Option`: `none` means the call panics and returns nothing.
- Network effects (thrift RPC calls) are passed in as explicit arguments: a
  function gives the response the server would return for each request, and the
  modelled operation is the pure rest of the code.
-/

/-! # Byte strings and UTF-8 (models of Rust `String::from_utf8` / `str::as_bytes`) -/

/-- Rust `Vec<u8>`: a byte string. -/
abbrev ByteStr := List Nat

/-- Is the byte a UTF-8 continuation byte (0x80..=0xBF)? -/
def isUtf8Cont (b : Nat) : Bool :=
  decide (0x80 ≤ b) && decide (b ≤ 0xBF)

/-- Valid second byte of a three-byte UTF-8 sequence headed by b1
(excludes overlong encodings and surrogates, as Rust does). -/
def utf8Second3 (b1 b2 : Nat) : Bool :=
  if b1 = 0xE0 then decide (0xA0 ≤ b2) && decide (b2 ≤ 0xBF)
  else if b1 = 0xED then decide (0x80 ≤ b2) && decide (b2 ≤ 0x9F)
  else isUtf8Cont b2

/-- Valid second byte of a four-byte UTF-8 sequence headed by b1
(excludes overlong encodings and values above U+10FFFF, as Rust does). -/
def utf8Second4 (b1 b2 : Nat) : Bool :=
  if b1 = 0xF0 then decide (0x90 ≤ b2) && decide (b2 ≤ 0xBF)
  else if b1 = 0xF4 then decide (0x80 ≤ b2) && decide (b2 ≤ 0x8F)
  else isUtf8Cont b2

/-- UTF-8 decoding of a byte list, models the validation performed by Rust
`String::from_utf8`: `none` on any invalid sequence. -/
def utf8DecodeList : List Nat → Option (List Char)
  | [] => some []
  | b1 :: t1 =>
    if b1 ≤ 0x7F then
      (utf8DecodeList t1).map (fun cs => Char.ofNat b1 :: cs)
    else if 0xC2 ≤ b1 ∧ b1 ≤ 0xDF then
      match t1 with
      | b2 :: t2 =>
        if isUtf8Cont b2 then
          (utf8DecodeList t2).map
            (fun cs => Char.ofNat ((b1 - 0xC0) * 0x40 + (b2 - 0x80)) :: cs)
        else none
      | [] => none
    else if 0xE0 ≤ b1 ∧ b1 ≤ 0xEF then
      match t1 with
      | b2 :: b3 :: t3 =>
        if utf8Second3 b1 b2 && isUtf8Cont b3 then
          (utf8DecodeList t3).map
            (fun cs =>
              Char.ofNat ((b1 - 0xE0) * 0x1000 + (b2 - 0x80) * 0x40 + (b3 - 0x80)) :: cs)
        else none
      | _ => none
    else if 0xF0 ≤ b1 ∧ b1 ≤ 0xF4 then
      match t1 with
      | b2 :: b3 :: b4 :: t4 =>
        if utf8Second4 b1 b2 && isUtf8Cont b3 && isUtf8Cont b4 then
          (utf8DecodeList t4).map
            (fun cs =>
              Char.ofNat
                ((b1 - 0xF0) * 0x40000 + (b2 - 0x80) * 0x1000 +
                  (b3 - 0x80) * 0x40 + (b4 - 0x80)) :: cs)
        else none
      | _ => none
    else none

/-- Rust `String::from_utf8` (as an Option; Ok becomes some). -/
def utf8Decode (l : List Nat) : Option String :=
  (utf8DecodeList l).map (fun cs => String.mk cs)

/-- UTF-8 encoding of one character. -/
def utf8EncodeChar (c : Char) : List Nat :=
  let n := c.toNat
  if n < 0x80 then [n]
  else if n < 0x800 then [0xC0 + n / 0x40, 0x80 + n % 0x40]
  else if n < 0x10000 then
    [0xE0 + n / 0x1000, 0x80 + n / 0x40 % 0x40, 0x80 + n % 0x40]
  else
    [0xF0 + n / 0x40000, 0x80 + n / 0x1000 % 0x40, 0x80 + n / 0x40 % 0x40, 0x80 + n % 0x40]

/-- Rust `str::as_bytes().to_vec()`: UTF-8 encoding of a string. -/
def utf8Encode (s : String) : List Nat :=
  (s.data.map utf8EncodeChar).flatten

/-- Rust zero-padded fixed-width integer formatting, as in `format!("{:04}", n)`:
the sign comes first, zeros pad the digits to the requested total width. -/
def rustPadZero (width : Nat) (n : Int) : String :=
  let digits := toString n.natAbs
  if n < 0 then
    "-" ++ String.mk (List.replicate (width - (digits.length + 1)) '0') ++ digits
  else
    String.mk (List.replicate (width - digits.length) '0') ++ digits

/-! # Value model (src/value_wrapper/mod.rs and the common thrift types) -/

/-- src/lib.rs: `pub struct TimezoneInfo {}` (no fields). -/
structure TimezoneInfo where
  deriving DecidableEq

/-- The thrift `NullType` enum; `otherNull` stands for out-of-range wire values. -/
inductive NullType where
  | NULL_T
  | NaN
  | BAD_DATA
  | BAD_TYPE
  | ERR_OVERFLOW
  | UNKNOWN_PROP
  | DIV_BY_ZERO
  | OUT_OF_RANGE
  | otherNull (n : Int)
  deriving DecidableEq

/-- Display of NullType (thrift-generated Display prints the variant name). -/
def NullType.render : NullType → String
  | .NULL_T => "__NULL__"
  | .NaN => "NaN"
  | .BAD_DATA => "BAD_DATA"
  | .BAD_TYPE => "BAD_TYPE"
  | .ERR_OVERFLOW => "ERR_OVERFLOW"
  | .UNKNOWN_PROP => "UNKNOWN_PROP"
  | .DIV_BY_ZERO => "DIV_BY_ZERO"
  | .OUT_OF_RANGE => "OUT_OF_RANGE"
  | .otherNull n => toString n

/-- Thrift `Date { year: i16, month: i8, day: i8 }`. -/
structure NDate where
  year : Int
  month : Int
  day : Int

/-- Thrift `Time { hour: i8, minute: i8, sec: i8, microsec: i32 }`. -/
structure NTime where
  hour : Int
  minute : Int
  sec : Int
  microsec : Int

/-- Thrift `DateTime`. -/
structure NDateTime where
  year : Int
  month : Int
  day : Int
  hour : Int
  minute : Int
  sec : Int
  microsec : Int

/-- Thrift `Duration { seconds: i64, microseconds: i32, months: i32 }`. -/
structure NDuration where
  seconds : Int
  microseconds : Int
  months : Int

/-- Thrift `Coordinate { x: f64, y: f64 }`. -/
structure Coordinate where
  x : Float
  y : Float

/-- Thrift `Geography` union (Point, LineString, Polygon). -/
inductive Geography where
  | ptVal (coord : Coordinate)
  | lsVal (coordList : List Coordinate)
  | pgVal (coordListList : List (List Coordinate))

mutual

/-- The thrift `Value` union (16 payload arms plus the unknown-field arm, which
the Rust code treats as the empty sentinel via its catch-all matches). -/
inductive Value where
  | nVal (v : NullType)
  | bVal (v : Bool)
  | iVal (v : Int)
  | fVal (v : Float)
  | sVal (v : List Nat)
  | dVal (v : NDate)
  | tVal (v : NTime)
  | dtVal (v : NDateTime)
  | vVal (v : NVertex)
  | eVal (v : NEdge)
  | pVal (v : NPath)
  | lVal (v : List Value)
  | mVal (v : List (List Nat × Value))
  | uVal (v : List Value)
  | ggVal (v : Geography)
  | duVal (v : NDuration)
  | unknownField (n : Int)

/-- Thrift `Vertex { vid: Value, tags: list<Tag> }`. -/
inductive NVertex where
  | mk (vid : Value) (tags : List NTagRec)

/-- Thrift `Tag { name: binary, props: map<binary, Value> }`. -/
inductive NTagRec where
  | mk (name : List Nat) (props : List (List Nat × Value))

/-- Thrift `Edge`. -/
inductive NEdge where
  | mk (src : Value) (dst : Value) (etype : Int) (name : List Nat) (ranking : Int)
      (props : List (List Nat × Value))

/-- Thrift `Path { src: Vertex, steps: list<Step> }`. -/
inductive NPath where
  | mk (src : NVertex) (steps : List NStep)

/-- Thrift `Step`. -/
inductive NStep where
  | mk (dst : NVertex) (etype : Int) (name : List Nat) (ranking : Int)
      (props : List (List Nat × Value))

end

/-- src/value_wrapper/mod.rs `ValueWrapper` (a view of one value; the Rust
borrow is modelled by value). -/
structure ValueWrapper where
  value : Value
  timezone_info : TimezoneInfo

/-- src/value_wrapper/mod.rs `ValueWrapper::new`. -/
def ValueWrapper.new (val : Value) (timezone_info : TimezoneInfo) : ValueWrapper :=
  { value := val, timezone_info := timezone_info }

/-- src/value_wrapper/mod.rs `ValueWrapper::get_type`. -/
def ValueWrapper.get_type (w : ValueWrapper) : String :=
  match w.value with
  | .nVal _ => "null"
  | .bVal _ => "bool"
  | .iVal _ => "int"
  | .fVal _ => "float"
  | .sVal _ => "string"
  | .dVal _ => "date"
  | .tVal _ => "time"
  | .dtVal _ => "datetime"
  | .vVal _ => "vertex"
  | .eVal _ => "edge"
  | .pVal _ => "path"
  | .lVal _ => "list"
  | .mVal _ => "map"
  | .uVal _ => "set"
  | .ggVal _ => "geography"
  | .duVal _ => "duration"
  | .unknownField _ => "empty"

/-- src/value_wrapper/mod.rs `ValueWrapper::to_string`. `none` models the
`todo!()` panic on the seven unimplemented container/graph arms. On `sVal`,
the Rust code extends the quoted string with the Result of `from_utf8`, so an
invalid byte string contributes nothing between the quotes (no panic). The
rendering of a float payload delegates to Float formatting and is never relied
upon by a theorem below. -/
def Value.toStringRendered : Value → Option String
  | .nVal v => some v.render
  | .bVal v => some (toString v)
  | .iVal v => some (toString v)
  | .fVal v => some (toString v)
  | .sVal v => some ("\"" ++ ((utf8Decode v).getD "") ++ "\"")
  | .dVal v =>
    some (rustPadZero 4 v.year ++ "-" ++ rustPadZero 2 v.month ++ "-" ++ rustPadZero 2 v.day)
  | .tVal v =>
    some (rustPadZero 2 v.hour ++ ":" ++ rustPadZero 2 v.minute ++ ":" ++
      rustPadZero 2 v.sec ++ "." ++ rustPadZero 6 v.microsec)
  | .dtVal v =>
    some (rustPadZero 4 v.year ++ "-" ++ rustPadZero 2 v.month ++ "-" ++ rustPadZero 2 v.day ++
      " " ++ rustPadZero 2 v.hour ++ ":" ++ rustPadZero 2 v.minute ++ ":" ++
      rustPadZero 2 v.sec ++ "." ++ rustPadZero 6 v.microsec)
  | .vVal _ => none
  | .eVal _ => none
  | .pVal _ => none
  | .lVal _ => none
  | .mVal _ => none
  | .uVal _ => none
  | .ggVal _ => none
  | .duVal v =>
    some (toString v.months ++ " months, " ++ toString v.seconds ++ " seconds, " ++
      toString v.microseconds ++ " microseconds")
  | .unknownField _ => some ""

/-- Rendering through a `ValueWrapper` (what `as_string_table` calls). -/
def ValueWrapper.toStringRendered (w : ValueWrapper) : Option String :=
  w.value.toStringRendered

/-- src/value_wrapper/mod.rs `gen_val_wraps` (the Ok payload). -/
def gen_val_wraps (values : List Value) (timezone_info : TimezoneInfo) : List ValueWrapper :=
  values.map (fun v => ValueWrapper.new v timezone_info)

/-! # Dataset wrapper (src/dataset_wrapper.rs) -/

/-- Modelled from the spec: the module `data_deserializer` is declared in
src/lib.rs but its file is not under src/. Section 4.3 of the spec describes
its error as `DataDeserializeError(field?, kind)` with kind one of
Message(s), UnsupportedType, ConversionError(from, to), Custom(s); `field`
carries the offending column name when known. Only the shape of the type is
needed here (the dataset wrapper stores it opaquely). -/
inductive DataDeserializeKind where
  | Message (s : String)
  | UnsupportedType
  | ConversionError (fromType toType : String)
  | Custom (s : String)
  deriving DecidableEq

/-- Modelled from the spec: see `DataDeserializeKind`. -/
structure DataDeserializeError where
  fieldName : Option (List Nat)
  kind : DataDeserializeKind
  deriving DecidableEq

/-- src/dataset_wrapper.rs `DataSetError`. -/
inductive DataSetError where
  | InvalidIndexError (idx len : Nat)
  | UnexistedColumnError (col_name : String)
  | DataDeserializeError (err : DataDeserializeError)
  | UnexistedDataSetError
  deriving DecidableEq

/-- Thrift `Row { values: list<Value> }`. -/
structure Row where
  values : List Value

/-- Thrift `DataSet { column_names: list<binary>, rows: list<Row> }`. -/
structure DataSet where
  column_names : List (List Nat)
  rows : List Row

/-- Sequencing of a fallible map over a list, left to right, stopping at the
first failure; the Option mirrors a possible Rust panic inside a map/collect. -/
def optionMapM {α β : Type} (f : α → Option β) : List α → Option (List β)
  | [] => some []
  | a :: l =>
    match f a with
    | none => none
    | some b =>
      match optionMapM f l with
      | none => none
      | some bs => some (b :: bs)

/-- src/dataset_wrapper.rs `DataSetWrapper::new`: the name-to-index map is a
HashMap populated by walking the column list in order, so a later insert for
the same name overwrites an earlier one. The map is modelled as a function. -/
def insertColNames (m : List Nat → Option Nat) (i : Nat) :
    List (List Nat) → (List Nat → Option Nat)
  | [] => m
  | name :: rest =>
    insertColNames (fun k => if k = name then some i else m k) (i + 1) rest

/-- src/dataset_wrapper.rs `DataSetWrapper`. -/
structure DataSetWrapper where
  dataset : DataSet
  col_name_index_map : List Nat → Option Nat
  timezone_info : TimezoneInfo

/-- src/dataset_wrapper.rs `DataSetWrapper::new`. -/
def DataSetWrapper.new (dataset : DataSet) (timezone_info : TimezoneInfo) : DataSetWrapper :=
  { dataset := dataset,
    col_name_index_map := insertColNames (fun _ => none) 0 dataset.column_names,
    timezone_info := timezone_info }

/-- src/dataset_wrapper.rs `DataSetWrapper::get_rows`. -/
def DataSetWrapper.get_rows (w : DataSetWrapper) : List Row :=
  w.dataset.rows

/-- src/dataset_wrapper.rs `DataSetWrapper::get_col_names`. -/
def DataSetWrapper.get_col_names (w : DataSetWrapper) : List (List Nat) :=
  w.dataset.column_names

/-- src/dataset_wrapper.rs `DataSetWrapper::get_row_size`. -/
def DataSetWrapper.get_row_size (w : DataSetWrapper) : Nat :=
  w.get_rows.length

/-- src/dataset_wrapper.rs `DataSetWrapper::get_col_size`. -/
def DataSetWrapper.get_col_size (w : DataSetWrapper) : Nat :=
  w.get_col_names.length

/-- src/dataset_wrapper.rs `DataSetWrapper::is_empty`. -/
def DataSetWrapper.is_empty (w : DataSetWrapper) : Bool :=
  w.get_col_size = 0

/-- src/dataset_wrapper.rs `DataSetWrapper::has_col_name`. -/
def DataSetWrapper.has_col_name (w : DataSetWrapper) (col_name : String) : Bool :=
  (w.col_name_index_map (utf8Encode col_name)).isSome

/-- src/dataset_wrapper.rs `DataSetWrapper::as_string_table`: row 0 is the
column names decoded from UTF-8 (the unwrap panic is the outer Option), the
remaining rows render every value through the value model. -/
def DataSetWrapper.as_string_table (w : DataSetWrapper) : Option (List (List String)) :=
  match optionMapM (fun v => utf8Decode v) w.get_col_names with
  | none => none
  | some col_names =>
    match
      optionMapM
        (fun row =>
          optionMapM (fun v => (ValueWrapper.new v w.timezone_info).toStringRendered) row.values)
        w.get_rows
    with
    | none => none
    | some rows_table => some (col_names :: rows_table)

/-- src/dataset_wrapper.rs `DataSetWrapper::get_values_by_col_name`. The inner
indexing `row.values[index]` panics when a row is shorter than the column
list; the outer Option models that. -/
def DataSetWrapper.get_values_by_col_name (w : DataSetWrapper) (col_name : String) :
    Option (Except DataSetError (List ValueWrapper)) :=
  if ¬ w.has_col_name col_name then
    some (.error (.UnexistedColumnError col_name))
  else
    match w.col_name_index_map (utf8Encode col_name) with
    | none => none
    | some index =>
      (optionMapM
        (fun row => (row.values.get? index).map (fun v => ValueWrapper.new v w.timezone_info))
        w.get_rows).map .ok

/-- src/dataset_wrapper.rs `Record` (a borrow view of one row). -/
structure Record where
  column_names : List (List Nat)
  records : List ValueWrapper
  col_name_index_map : List Nat → Option Nat
  timezone_info : TimezoneInfo

/-- src/dataset_wrapper.rs `DataSetWrapper::get_row_values_by_index`. The index
is checked against the row count before any row access. -/
def DataSetWrapper.get_row_values_by_index (w : DataSetWrapper) (index : Nat) :
    Except DataSetError Record :=
  if index ≥ w.get_row_size then
    .error (.InvalidIndexError index w.get_row_size)
  else
    .ok
      { column_names := w.get_col_names,
        records := gen_val_wraps ((w.get_rows.getD index { values := [] }).values) w.timezone_info,
        col_name_index_map := w.col_name_index_map,
        timezone_info := w.timezone_info }

/-- src/dataset_wrapper.rs `Record::get_value_by_index`. The Rust guard is
`index > self.records.len()` (strict), so at `index = len` the guard passes
and `self.records[index]` is evaluated: that out-of-range access is the
`none` (panic) case of the model. -/
def Record.get_value_by_index (r : Record) (index : Nat) :
    Option (Except DataSetError ValueWrapper) :=
  if index > r.records.length then
    some (.error (.InvalidIndexError index r.records.length))
  else
    (r.records.get? index).map .ok

/-- src/dataset_wrapper.rs `Record::has_col_name`. -/
def Record.has_col_name (r : Record) (col_name : String) : Bool :=
  (r.col_name_index_map (utf8Encode col_name)).isSome

/-- src/dataset_wrapper.rs `Record::get_value_by_col_name`. -/
def Record.get_value_by_col_name (r : Record) (col_name : String) :
    Option (Except DataSetError ValueWrapper) :=
  if ¬ r.has_col_name col_name then
    some (.error (.UnexistedColumnError col_name))
  else
    match r.col_name_index_map (utf8Encode col_name) with
    | none => none
    | some index => (r.records.get? index).map .ok

/-- src/dataset_wrapper.rs, the row loop of `DataSetWrapper::scan`: deserialize
every row in order, short-circuiting on the first failing row. The row
deserializer (the missing data_deserializer module) is passed in as `des`. -/
def scanRows {D : Type} (des : List (List Nat) → List Value → Except DataDeserializeError D)
    (names : List (List Nat)) : List Row → Except DataSetError (List D)
  | [] => .ok []
  | row :: rest =>
    match des names row.values with
    | .error e => .error (.DataDeserializeError e)
    | .ok d =>
      match scanRows des names rest with
      | .error e => .error e
      | .ok ds => .ok (d :: ds)

/-- src/dataset_wrapper.rs `DataSetWrapper::scan`. -/
def DataSetWrapper.scan {D : Type} (w : DataSetWrapper)
    (des : List (List Nat) → List Value → Except DataDeserializeError D) :
    Except DataSetError (List D) :=
  if w.is_empty then .ok []
  else scanRows des w.get_col_names w.get_rows

/-! # Graph layer (src/graph/) -/

/-- The thrift `ErrorCode` enum. Only the codes the client inspects are named;
every remaining wire code (E PARTIAL SUCCEEDED among them) is `otherCode n`,
which every Rust match under consideration sends to its catch-all arm. -/
inductive ErrorCode where
  | SUCCEEDED
  | E_DISCONNECTED
  | E_SESSION_INVALID
  | E_SESSION_TIMEOUT
  | otherCode (n : Int)
  deriving DecidableEq

/-- Thrift `PlanDescription` (opaque to the client; never inspected). -/
structure PlanDescription where
  deriving DecidableEq

/-- Thrift `ExecutionResponse`, the fields the client relies on. -/
structure ExecutionResponse where
  error_code : ErrorCode
  error_msg : Option (List Nat)
  latency_in_us : Int
  space_name : Option (List Nat)
  plan_desc : Option PlanDescription
  comment : Option (List Nat)
  data : Option DataSet

/-- `std::io::ErrorKind`: broken pipe against every other kind. -/
inductive IoErrorKind where
  | BrokenPipe
  | OtherKind (n : Nat)
  deriving DecidableEq

/-- `std::io::Error`, reduced to its kind (all the client reads). -/
structure IoError where
  kind : IoErrorKind
  deriving DecidableEq

/-- The payload of a thrift transport error (an anyhow error). The field `io`
is the view `err.downcast_ref::<IoError>()`: some when the underlying error is
an IO error. -/
structure ThriftErrorPayload where
  io : Option IoError
  deriving DecidableEq

/-- Thrift-generated `ExecuteError` (transport arm and application arm). -/
inductive ExecuteError where
  | ThriftError (e : ThriftErrorPayload)
  | ApplicationException (msg : String)
  deriving DecidableEq

/-- Thrift-generated `ExecuteJsonError` (same shape as `ExecuteError`). -/
inductive ExecuteJsonError where
  | ThriftError (e : ThriftErrorPayload)
  | ApplicationException (msg : String)
  deriving DecidableEq

/-- Thrift-generated `AuthenticateError` (same shape as `ExecuteError`). -/
inductive AuthenticateError where
  | ThriftError (e : ThriftErrorPayload)
  | ApplicationException (msg : String)
  deriving DecidableEq

/-- src/graph/query.rs `GraphQueryError`. -/
inductive GraphQueryError where
  | ExecuteError (err : ExecuteError)
  | ResponseError (code : ErrorCode) (msg : Option (List Nat))
  | DataDeserializeError (err : DataDeserializeError)

/-- src/graph/single_conn_session/mod.rs `SingleConnSessionError`. -/
inductive SingleConnSessionError where
  | TransportBuildError (err : IoError)
  | AuthenticateError (err : AuthenticateError)
  | GraphQueryError (err : GraphQueryError)

/-- src/graph/query.rs `GraphQueryOutput`. -/
structure GraphQueryOutput where
  resp : ExecutionResponse
  data_set : Option DataSetWrapper

/-- src/graph/query.rs `GraphQueryOutput::new`: `resp.data.take()` moves the
dataset out of the response and wraps it. -/
def GraphQueryOutput.new (resp : ExecutionResponse) (timezone_info : TimezoneInfo) :
    GraphQueryOutput :=
  { resp := { resp with data := none },
    data_set := resp.data.map (fun v => DataSetWrapper.new v timezone_info) }

/-- src/graph/connection.rs `GraphConnection` (the thrift service handle; it
carries no modelled state, requests are answered by the rpc argument of each
operation). -/
structure GraphConnection where
  deriving DecidableEq

/-- src/graph/single_conn_session/mod.rs `SingleConnSession`. -/
structure SingleConnSession where
  connection : GraphConnection
  session_id : Int
  timezone_info : TimezoneInfo
  close_required : Bool

/-- src/graph/single_conn_session/mod.rs `SingleConnSession::new`. -/
def SingleConnSession.new (connection : GraphConnection) (session_id : Int) :
    SingleConnSession :=
  { connection := connection,
    session_id := session_id,
    close_required := false,
    timezone_info := {} }

/-- src/graph/single_conn_session/mod.rs `SingleConnSession::is_close_required`. -/
def SingleConnSession.is_close_required (s : SingleConnSession) : Bool :=
  s.close_required

/-- src/graph/single_conn_session/mod.rs `SingleConnSession::query` (the
GraphQuery impl). `rpc` gives the outcome of the underlying
`connection.service.execute(session_id, stmt_bytes)` call for the statement
bytes. Returns the session (whose close_required flag the call may set)
together with the result. -/
def SingleConnSession.query (s : SingleConnSession) (stmt : String)
    (rpc : List Nat → Except ExecuteError ExecutionResponse) :
    SingleConnSession × Except SingleConnSessionError GraphQueryOutput :=
  match rpc (utf8Encode stmt) with
  | .error (.ThriftError err) =>
    let s1 :=
      match err.io with
      | some io_err =>
        if io_err.kind = IoErrorKind.BrokenPipe then { s with close_required := true } else s
      | none => s
    (s1, .error (.GraphQueryError (.ExecuteError (.ThriftError err))))
  | .error err => (s, .error (.GraphQueryError (.ExecuteError err)))
  | .ok res =>
    match res.error_code with
    | .SUCCEEDED => (s, .ok (GraphQueryOutput.new res s.timezone_info))
    | .E_SESSION_INVALID =>
      ({ s with close_required := true },
        .error (.GraphQueryError (.ResponseError res.error_code res.error_msg)))
    | .E_SESSION_TIMEOUT =>
      ({ s with close_required := true },
        .error (.GraphQueryError (.ResponseError res.error_code res.error_msg)))
    | _ => (s, .error (.GraphQueryError (.ResponseError res.error_code res.error_msg)))

/-- src/graph/query.rs, default method `GraphQuery::execute`: run `query` and
drop the output. -/
def SingleConnSession.execute (s : SingleConnSession) (stmt : String)
    (rpc : List Nat → Except ExecuteError ExecutionResponse) :
    SingleConnSession × Except SingleConnSessionError Unit :=
  match s.query stmt rpc with
  | (s1, .error e) => (s1, .error e)
  | (s1, .ok _) => (s1, .ok ())

/-- src/graph/single_conn_session/mod.rs `SingleConnSession::execute_json`.
`rpc` is the outcome of `connection.service.executeJson(session_id, stmt)`. -/
def SingleConnSession.execute_json (s : SingleConnSession) (stmt : List Nat)
    (rpc : List Nat → Except ExecuteJsonError (List Nat)) :
    SingleConnSession × Except ExecuteJsonError (List Nat) :=
  match rpc stmt with
  | .error (.ThriftError err) =>
    let s1 :=
      match err.io with
      | some io_err =>
        if io_err.kind = IoErrorKind.BrokenPipe then { s with close_required := true } else s
      | none => s
    (s1, .error (.ThriftError err))
  | .error err => (s, .error err)
  | .ok res => (s, .ok res)

/-! # Session manager and round-robin host selection
(src/graph/single_conn_session/single_conn_session_manager.rs) -/

/-- src/lib.rs `HostAddress { host: String, port: u16 }`. -/
structure HostAddress where
  host : String
  port : Nat
  deriving DecidableEq

/-- src/lib.rs `HostAddress::to_string`: `host:port`. -/
def HostAddress.to_string (a : HostAddress) : String :=
  a.host ++ ":" ++ toString a.port

/-- `SingleConnSessionConf`. The atomic host index is a plain Nat: the claims
below concern single-threaded sequential use, under which the Relaxed atomic
loads and stores of the Rust code read and write exactly this value. -/
structure SingleConnSessionConf where
  host_addrs : List HostAddress
  host_idx : Nat
  username : String
  password : String
  space : Option String
  buf_size : Option Nat
  max_buf_size : Option Nat
  max_parse_response_bytes_count : Option Nat
  read_timeout : Option Nat

/-- `SingleConnSessionConf::new`. -/
def SingleConnSessionConf.new (host_addrs : List HostAddress) (username password : String)
    (space : Option String) : SingleConnSessionConf :=
  { host_addrs := host_addrs,
    host_idx := 0,
    username := username,
    password := password,
    space := space,
    buf_size := none,
    max_buf_size := none,
    max_parse_response_bytes_count := none,
    read_timeout := none }

/-- `SingleConnSessionConf::get_next_addr`: reset the index to 0 when it has
reached the end, read the host at the index, then increment. Returns the host
and the updated config. Indexing an empty host list panics in Rust; the
default value stands for that unreachable read (the claims assume a non-empty
list). -/
def SingleConnSessionConf.get_next_addr (c : SingleConnSessionConf) :
    HostAddress × SingleConnSessionConf :=
  let i := if c.host_idx ≥ c.host_addrs.length then 0 else c.host_idx
  (c.host_addrs.getD i { host := "", port := 0 }, { c with host_idx := i + 1 })

/-- The address returned by the (n+1)-st sequential `get_next_addr` call,
threading the updated config through the calls. -/
def SingleConnSessionConf.nth_next_addr (c : SingleConnSessionConf) : Nat → HostAddress
  | 0 => c.get_next_addr.1
  | n + 1 => c.get_next_addr.2.nth_next_addr n

/-- `SingleConnSessionManager` (the transport configuration only tunes the
external transport collaborator and carries no modelled state). -/
structure SingleConnSessionManager where
  config : SingleConnSessionConf

/-- The outcome of `SingleConnSessionManager::get_session`: the result, the
config after the round-robin step, and the statements the new session was made
to execute before being returned. -/
structure GetSessionResult where
  result : Except SingleConnSessionError SingleConnSession
  conf : SingleConnSessionConf
  executed : List String

/-- `SingleConnSessionManager::get_session`. Effects are inputs:
`transport addr_string` is the outcome of the TCP transport build,
`auth` the outcome of `authenticate` (a session id on success), and
`rpc` answers the execute RPC of the new session, as in
`SingleConnSession.query`. When a default space is configured the code runs
`session.execute(&format!("Use {};", space))` and propagates its failure. -/
def SingleConnSessionManager.get_session (m : SingleConnSessionManager)
    (transport : String → Except IoError Unit)
    (auth : Except AuthenticateError Int)
    (rpc : List Nat → Except ExecuteError ExecutionResponse) : GetSessionResult :=
  let step := m.config.get_next_addr
  match transport step.1.to_string with
  | .error e => { result := .error (.TransportBuildError e), conf := step.2, executed := [] }
  | .ok _ =>
    match auth with
    | .error e => { result := .error (.AuthenticateError e), conf := step.2, executed := [] }
    | .ok session_id =>
      let session := SingleConnSession.new {} session_id
      match m.config.space with
      | none => { result := .ok session, conf := step.2, executed := [] }
      | some sp =>
        let stmt := "Use " ++ sp ++ ";"
        match session.execute stmt rpc with
        | (_, .error e) => { result := .error e, conf := step.2, executed := [stmt] }
        | (session1, .ok _) => { result := .ok session1, conf := step.2, executed := [stmt] }

/-- src/graph/single_conn_session/single_conn_session_manager.rs, the
`bb8::ManageConnection` impl: `has_broken` returns `is_close_required`. -/
def SingleConnSessionManager.has_broken (conn : SingleConnSession) : Bool :=
  conn.is_close_required

/-! # Meta client and cache (src/meta/) -/

/-- Thrift `HostAddr { host: string, port: i32 }` (the common type used by the
meta and storage tiers). -/
structure HostAddr where
  host : String
  port : Int
  deriving DecidableEq

/-- Thrift `ColumnDef`: only the column name is read by the client. -/
structure ColumnDef where
  name : List Nat
  deriving DecidableEq

/-- Thrift `Schema { columns: list<ColumnDef> }` (the part the client reads). -/
structure Schema where
  columns : List ColumnDef
  deriving DecidableEq

/-- Thrift `TagItem`. -/
structure TagItem where
  tag_id : Int
  tag_name : List Nat
  version : Int
  schema : Schema
  deriving DecidableEq

/-- Thrift `EdgeItem`. -/
structure EdgeItem where
  edge_type : Int
  edge_name : List Nat
  version : Int
  schema : Schema
  deriving DecidableEq

/-- Thrift `ID` union. -/
inductive ID where
  | space_id (v : Int)
  | tag_id (v : Int)
  | edge_type (v : Int)
  | index_id (v : Int)
  | cluster_id (v : Int)
  deriving DecidableEq

/-- Thrift `IdName { id: ID, name: binary }` (a listSpaces entry). -/
structure IdName where
  id : ID
  name : List Nat
  deriving DecidableEq

/-- Thrift `HostItem`: only `hostAddr` is read by the client. -/
structure HostItem where
  hostAddr : HostAddr
  deriving DecidableEq

/-- src/meta/metacache.rs `SpaceCache`. HashMaps keyed by byte-string names are
modelled as functions to Option; the BTreeMap `parts_alloc` keeps its entries
as an association list in key order. -/
structure SpaceCache where
  space_id : Int
  space_name : List Nat
  tag_items : List Nat → Option TagItem
  edge_items : List Nat → Option EdgeItem
  parts_alloc : List (Int × List HostAddr)

/-- src/meta/metacache.rs `MetaCache`. -/
structure MetaCache where
  space_caches : List Nat → Option SpaceCache
  space_id_names : Int → Option (List Nat)
  storage_addrs : Option (List HostAddr)
  storage_leader : List Nat → Option (Int → Option HostAddr)

/-- src/meta/metacache.rs `MetaCache::new`. -/
def MetaCache.new : MetaCache :=
  { space_caches := fun _ => none,
    space_id_names := fun _ => none,
    storage_addrs := none,
    storage_leader := fun _ => none }

/-- src/meta/client.rs `load_all`, the tag loop body: insert the tag when the
name is absent or the stored version is strictly lower. -/
def tagFoldStep (m : List Nat → Option TagItem) (tag : TagItem) :
    List Nat → Option TagItem :=
  match m tag.tag_name with
  | none => fun k => if k = tag.tag_name then some tag else m k
  | some old =>
    if old.version < tag.version then
      fun k => if k = tag.tag_name then some tag else m k
    else m

/-- src/meta/client.rs `load_all`: the `tag_items` map built from a listTags
response. -/
def buildTagItems (tags : List TagItem) : List Nat → Option TagItem :=
  tags.foldl tagFoldStep (fun _ => none)

/-- src/meta/client.rs `load_all`, the edge loop body (same policy as tags). -/
def edgeFoldStep (m : List Nat → Option EdgeItem) (edge : EdgeItem) :
    List Nat → Option EdgeItem :=
  match m edge.edge_name with
  | none => fun k => if k = edge.edge_name then some edge else m k
  | some old =>
    if old.version < edge.version then
      fun k => if k = edge.edge_name then some edge else m k
    else m

/-- src/meta/client.rs `load_all`: the `edge_items` map built from a listEdges
response. -/
def buildEdgeItems (edges : List EdgeItem) : List Nat → Option EdgeItem :=
  edges.foldl edgeFoldStep (fun _ => none)

/-- src/meta/client.rs `load_all`: the space id extracted from a listSpaces
entry (`if let ID::space_id(id) = space.id { id } else { 0 }`). -/
def spaceIdOf (i : ID) : Int :=
  match i with
  | .space_id v => v
  | _ => 0

/-- The successful responses of the meta server consumed by one `load_all`
run: listSpaces, then per space id getPartsAlloc, listTags, listEdges, then
listHosts(STORAGE). -/
structure MetaRpcData where
  spaces : List IdName
  parts_alloc : Int → List (Int × List HostAddr)
  tags : Int → List TagItem
  edges : Int → List EdgeItem
  hosts : List HostItem

/-- src/meta/client.rs `load_all`, one iteration of the space loop: the
SpaceCache built for one listSpaces entry. -/
def mkSpaceCache (data : MetaRpcData) (space : IdName) : SpaceCache :=
  { space_id := spaceIdOf space.id,
    space_name := space.name,
    tag_items := buildTagItems (data.tags (spaceIdOf space.id)),
    edge_items := buildEdgeItems (data.edges (spaceIdOf space.id)),
    parts_alloc := data.parts_alloc (spaceIdOf space.id) }

/-- src/meta/client.rs `load_all`: `space_caches` after the space loop (a
HashMap insert per space, later spaces with the same name overwrite). -/
def buildSpaceCaches (data : MetaRpcData) : List Nat → Option SpaceCache :=
  data.spaces.foldl
    (fun m space => fun k => if k = space.name then some (mkSpaceCache data space) else m k)
    (fun _ => none)

/-- src/meta/client.rs `load_all`: `space_id_names` after the space loop. -/
def buildSpaceIdNames (data : MetaRpcData) : Int → Option (List Nat) :=
  data.spaces.foldl
    (fun m space => fun k => if k = spaceIdOf space.id then some space.name else m k)
    (fun _ => none)

/-- src/meta/client.rs `load_all`, the storage_leader inner loop: for every
partition the first replica of its allocation becomes the assumed leader
(`parts_alloc[part_id][0]`; the Rust indexing panics on an empty replica list,
which the default value stands for). -/
def buildLeaderMap (parts : List (Int × List HostAddr)) : Int → Option HostAddr :=
  parts.foldl
    (fun m pr => fun k =>
      if k = pr.1 then some (pr.2.getD 0 { host := "", port := 0 }) else m k)
    (fun _ => none)

/-- src/meta/client.rs `load_all` on the success path: the MetaCache written at
the end of the run. The storage_leader table carries one leader map per entry
of `space_caches` (the Rust code loops over that HashMap; keys are the space
names, so the per-name result is the leader map of the cached space). -/
def MetaClient.load_all_ok (data : MetaRpcData) : MetaCache :=
  { space_caches := buildSpaceCaches data,
    space_id_names := buildSpaceIdNames data,
    storage_addrs := some (data.hosts.map (fun h => h.hostAddr)),
    storage_leader := fun name =>
      (buildSpaceCaches data name).map (fun sc => buildLeaderMap sc.parts_alloc) }

/-! # Storage scan fan-out (src/storage/) -/

/-- Thrift `VertexProp { tag: i32, props: list<binary> }`. -/
structure VertexProp where
  tag : Int
  props : List (List Nat)
  deriving DecidableEq

/-- Thrift `EdgeProp { type: i32, props: list<binary> }` (`type` is `r#type`
in the Rust source). -/
structure EdgeProp where
  r_type : Int
  props : List (List Nat)
  deriving DecidableEq

/-- Thrift `ScanCursor`: the continuation cursor (only next_cursor is set by
the client). -/
structure ScanCursor where
  next_cursor : Option (List Nat)
  deriving DecidableEq

/-- Thrift `RequestCommon` (never populated by the client). -/
structure RequestCommon where
  deriving DecidableEq

/-- Thrift `ScanVertexRequest`, the fields the client populates. -/
structure ScanVertexRequest where
  space_id : Int
  parts : List (Int × ScanCursor)
  return_columns : List VertexProp
  limit : Int
  start_time : Option Int
  end_time : Option Int
  filter : Option (List Nat)
  only_latest_version : Bool
  enable_read_from_follower : Bool
  common : Option RequestCommon
  deriving DecidableEq

/-- Thrift `ScanEdgeRequest`, the fields the client populates. -/
structure ScanEdgeRequest where
  space_id : Int
  parts : List (Int × ScanCursor)
  return_columns : List EdgeProp
  limit : Int
  start_time : Option Int
  end_time : Option Int
  filter : Option (List Nat)
  only_latest_version : Bool
  enable_read_from_follower : Bool
  common : Option RequestCommon
  deriving DecidableEq

/-- Thrift `ScanResponse` (the props dataset and the continuation cursors). -/
structure ScanResponse where
  props : Option DataSet
  cursors : List (Int × ScanCursor)

/-- Thrift-generated `ScanVertexError`. -/
inductive ScanVertexError where
  | ThriftError (e : ThriftErrorPayload)
  | ApplicationException (msg : String)
  deriving DecidableEq

/-- Thrift-generated `ScanEdgeError`. -/
inductive ScanEdgeError where
  | ThriftError (e : ThriftErrorPayload)
  | ApplicationException (msg : String)
  deriving DecidableEq

/-- src/storage/query.rs `StorageQueryError`. -/
inductive StorageQueryError where
  | ScanEdgeError (err : ScanEdgeError)
  | ScanVertexError (err : ScanVertexError)

/-- src/storage/query.rs `StorageQueryOutput`. -/
structure StorageQueryOutput where
  resp : ScanResponse
  data_set : Option DataSetWrapper

/-- src/storage/query.rs `StorageQueryOutput::new`: `resp.props.take()` moves
the dataset out and wraps it. -/
def StorageQueryOutput.new (resp : ScanResponse) (timezone_info : TimezoneInfo) :
    StorageQueryOutput :=
  { resp := { resp with props := none },
    data_set := resp.props.map (fun v => DataSetWrapper.new v timezone_info) }

/-- src/storage/client.rs `StorageConnection`: identified by the address it
was opened against (`format!("{}:{}", host, port)`). -/
structure StorageConnection where
  addr : String
  deriving DecidableEq

/-- Opening a storage connection to a leader (`StorageConnection::new(&saddr)`
on the success path). -/
def StorageConnection.new (h : HostAddr) : StorageConnection :=
  { addr := h.host ++ ":" ++ toString h.port }

/-- Lookup in the leader-to-connection map (`connection_map` is a HashMap
keyed by HostAddr; modelled as an association list of its entries). -/
def lookupConn : List (HostAddr × StorageConnection) → HostAddr → Option StorageConnection
  | [], _ => none
  | (k, c) :: rest, h => if k = h then some c else lookupConn rest h

/-- src/storage/client.rs, the connection loop of `scan_vertex`/`scan_edge`:
for every leader of the part-to-leader map not yet in `connection_map`, open a
connection and insert it. Returns the updated map together with the list of
addresses a new connection was opened for, in order. -/
def ensureConnections (cmap : List (HostAddr × StorageConnection)) :
    List (Int × HostAddr) → List (HostAddr × StorageConnection) × List HostAddr
  | [] => (cmap, [])
  | (_, h) :: rest =>
    match lookupConn cmap h with
    | some _ => ensureConnections cmap rest
    | none =>
      let out := ensureConnections (cmap ++ [(h, StorageConnection.new h)]) rest
      (out.1, h :: out.2)

/-- src/storage/query.rs `StorageScanVertexOutput::execute`: one scan RPC per
partition of the leader map, each with a fresh empty cursor, the default
limit/time bounds, and the vertex prop built by the client. `rpc conn req` is
the response of the storage server behind `conn` to `req`. The outer Option
is the panic model: `vertex_prop.clone().unwrap()` on a missing prop or
`connection_map[leader]` on a missing connection. -/
def StorageScanVertexOutput.execute (space_id : Int) (vertex_prop : Option VertexProp)
    (cmap : List (HostAddr × StorageConnection))
    (rpc : StorageConnection → ScanVertexRequest → Except ScanVertexError ScanResponse)
    (timezone_info : TimezoneInfo) :
    List (Int × HostAddr) → Option (Except StorageQueryError (List StorageQueryOutput))
  | [] => some (.ok [])
  | (part_id, leader) :: rest =>
    match lookupConn cmap leader with
    | none => none
    | some conn =>
      match vertex_prop with
      | none => none
      | some vp =>
        match
          rpc conn
            { space_id := space_id,
              parts := [(part_id, { next_cursor := none })],
              return_columns := [vp],
              limit := 1000,
              start_time := some 0,
              end_time := some 9223372036854775807,
              filter := none,
              only_latest_version := false,
              enable_read_from_follower := true,
              common := none }
        with
        | .error e => some (.error (.ScanVertexError e))
        | .ok resp =>
          match StorageScanVertexOutput.execute space_id vertex_prop cmap rpc timezone_info rest with
          | none => none
          | some (.error e) => some (.error e)
          | some (.ok outs) => some (.ok (StorageQueryOutput.new resp timezone_info :: outs))

/-- src/storage/query.rs `StorageScanEdgeOutput::execute` (same shape as the
vertex scan, with the edge request type). -/
def StorageScanEdgeOutput.execute (space_id : Int) (edge_prop : Option EdgeProp)
    (cmap : List (HostAddr × StorageConnection))
    (rpc : StorageConnection → ScanEdgeRequest → Except ScanEdgeError ScanResponse)
    (timezone_info : TimezoneInfo) :
    List (Int × HostAddr) → Option (Except StorageQueryError (List StorageQueryOutput))
  | [] => some (.ok [])
  | (part_id, leader) :: rest =>
    match lookupConn cmap leader with
    | none => none
    | some conn =>
      match edge_prop with
      | none => none
      | some ep =>
        match
          rpc conn
            { space_id := space_id,
              parts := [(part_id, { next_cursor := none })],
              return_columns := [ep],
              limit := 1000,
              start_time := some 0,
              end_time := some 9223372036854775807,
              filter := none,
              only_latest_version := false,
              enable_read_from_follower := true,
              common := none }
        with
        | .error e => some (.error (.ScanEdgeError e))
        | .ok resp =>
          match StorageScanEdgeOutput.execute space_id edge_prop cmap rpc timezone_info rest with
          | none => none
          | some (.error e) => some (.error e)
          | some (.ok outs) => some (.ok (StorageQueryOutput.new resp timezone_info :: outs))

/-- src/storage/client.rs, the tail of `scan_vertex` after meta resolution:
ensure a connection per leader of the resolved part-to-leader map, then run
the per-partition scan loop over the updated connection map. -/
def StorageClient.scan_vertex_fanout (space_id : Int) (vertex_prop : Option VertexProp)
    (leader_map : List (Int × HostAddr)) (cmap : List (HostAddr × StorageConnection))
    (rpc : StorageConnection → ScanVertexRequest → Except ScanVertexError ScanResponse)
    (timezone_info : TimezoneInfo) :
    (List (HostAddr × StorageConnection) × List HostAddr) ×
      Option (Except StorageQueryError (List StorageQueryOutput)) :=
  let ensured := ensureConnections cmap leader_map
  (ensured, StorageScanVertexOutput.execute space_id vertex_prop ensured.1 rpc timezone_info leader_map)

/-- src/storage/client.rs, the tail of `scan_edge` after meta resolution. -/
def StorageClient.scan_edge_fanout (space_id : Int) (edge_prop : Option EdgeProp)
    (leader_map : List (Int × HostAddr)) (cmap : List (HostAddr × StorageConnection))
    (rpc : StorageConnection → ScanEdgeRequest → Except ScanEdgeError ScanResponse)
    (timezone_info : TimezoneInfo) :
    (List (HostAddr × StorageConnection) × List HostAddr) ×
      Option (Except StorageQueryError (List StorageQueryOutput)) :=
  let ensured := ensureConnections cmap leader_map
  (ensured, StorageScanEdgeOutput.execute space_id edge_prop ensured.1 rpc timezone_info leader_map)

/-! # Theorems -/

/-- A concrete execution response with a SUCCEEDED code (used to instantiate
theorems with hypotheses at concrete inputs). -/
def respSucceeded : ExecutionResponse :=
  { error_code := .SUCCEEDED, error_msg := none, latency_in_us := 0,
    space_name := none, plan_desc := none, comment := none, data := none }

/-- The close_required flag after a query never drops from true; shared by the
policy and invariant theorems below. -/
theorem query_flag_stays_true (s : SingleConnSession) (stmt : String)
    (rpc : List Nat → Except ExecuteError ExecutionResponse)
    (h : s.close_required = true) : (s.query stmt rpc).1.close_required = true := by
  unfold SingleConnSession.query
  cases hr : rpc (utf8Encode stmt) with
  | error e =>
    cases e with
    | ThriftError te =>
      cases hio : te.io with
      | none => simp [hio, h]
      | some ioe =>
        by_cases hk : ioe.kind = IoErrorKind.BrokenPipe <;> simp [hio, hk, h]
    | ApplicationException m => simpa using h
  | ok res =>
    cases hc : res.error_code <;> simp [hc, h]

/-- Claim C1: for every statement, `SingleConnSession::query` applies the
response policy: a transport error whose IO kind is BrokenPipe sets
close_required and propagates; every other transport error propagates without
touching close_required; a SUCCEEDED response yields the wrapped output; an
E_SESSION_INVALID or E_SESSION_TIMEOUT code sets close_required and yields
ResponseError(code, msg); every other code yields ResponseError(code, msg)
without touching close_required. -/
theorem SingleConnSession.query_response_policy (s : SingleConnSession) (stmt : String) :
    (s.query stmt (fun _ => .error (.ThriftError { io := some { kind := .BrokenPipe } })) =
      ({ s with close_required := true },
        .error (.GraphQueryError (.ExecuteError
          (.ThriftError { io := some { kind := .BrokenPipe } }))))) ∧
    (∀ n, s.query stmt (fun _ => .error (.ThriftError { io := some { kind := .OtherKind n } })) =
      (s, .error (.GraphQueryError (.ExecuteError
        (.ThriftError { io := some { kind := .OtherKind n } }))))) ∧
    (s.query stmt (fun _ => .error (.ThriftError { io := none })) =
      (s, .error (.GraphQueryError (.ExecuteError (.ThriftError { io := none }))))) ∧
    (∀ msg, s.query stmt (fun _ => .error (.ApplicationException msg)) =
      (s, .error (.GraphQueryError (.ExecuteError (.ApplicationException msg))))) ∧
    (∀ (res : ExecutionResponse), s.query stmt (fun _ => .ok { res with error_code := .SUCCEEDED }) =
      (s, .ok (GraphQueryOutput.new { res with error_code := .SUCCEEDED } s.timezone_info))) ∧
    (∀ (res : ExecutionResponse), s.query stmt (fun _ => .ok { res with error_code := .E_SESSION_INVALID }) =
      ({ s with close_required := true },
        .error (.GraphQueryError (.ResponseError .E_SESSION_INVALID res.error_msg)))) ∧
    (∀ (res : ExecutionResponse), s.query stmt (fun _ => .ok { res with error_code := .E_SESSION_TIMEOUT }) =
      ({ s with close_required := true },
        .error (.GraphQueryError (.ResponseError .E_SESSION_TIMEOUT res.error_msg)))) ∧
    (∀ (res : ExecutionResponse), s.query stmt (fun _ => .ok { res with error_code := .E_DISCONNECTED }) =
      (s, .error (.GraphQueryError (.ResponseError .E_DISCONNECTED res.error_msg)))) ∧
    (∀ (res : ExecutionResponse) (n : Int), s.query stmt (fun _ => .ok { res with error_code := .otherCode n }) =
      (s, .error (.GraphQueryError (.ResponseError (.otherCode n) res.error_msg)))) := by
  refine ⟨rfl, fun n => rfl, rfl, fun msg => rfl, fun res => rfl, fun res => rfl,
    fun res => rfl, fun res => rfl, fun res n => rfl⟩

/-- Claim C3: close_required is false at construction, no query or
execute_json transition takes it from true back to false, and a query whose
response code is SUCCEEDED leaves it exactly as it was. -/
theorem SingleConnSession.close_required_monotone (conn : GraphConnection) (sid : Int)
    (s : SingleConnSession) (stmt : String)
    (rpc : List Nat → Except ExecuteError ExecutionResponse)
    (stmtB : List Nat) (rpcJ : List Nat → Except ExecuteJsonError (List Nat))
    (res : ExecutionResponse) :
    (SingleConnSession.new conn sid).close_required = false ∧
    (SingleConnSession.new conn sid).is_close_required = false ∧
    (s.close_required = true → (s.query stmt rpc).1.close_required = true) ∧
    (s.close_required = true → (s.execute_json stmtB rpcJ).1.close_required = true) ∧
    ((s.query stmt (fun _ => .ok { res with error_code := .SUCCEEDED })).1.close_required =
      s.close_required) := by
  refine ⟨rfl, rfl, query_flag_stays_true s stmt rpc, ?_, rfl⟩
  intro h
  unfold SingleConnSession.execute_json
  cases hr : rpcJ stmtB with
  | error e =>
    cases e with
    | ThriftError te =>
      cases hio : te.io with
      | none => simp [hio, h]
      | some ioe =>
        by_cases hk : ioe.kind = IoErrorKind.BrokenPipe <;> simp [hio, hk, h]
    | ApplicationException m => simpa using h
  | ok r => simpa using h

/-- Concrete instance of the C3 theorem: a session whose flag is already true
keeps it true across a failing query and a failing execute_json. -/
theorem SingleConnSession.close_required_monotone_witness :
    (({ connection := {}, session_id := 7, timezone_info := {}, close_required := true } :
        SingleConnSession).query "YIELD 1;"
        (fun _ => .error (.ThriftError { io := none }))).1.close_required = true :=
  (SingleConnSession.close_required_monotone {} 7
    { connection := {}, session_id := 7, timezone_info := {}, close_required := true }
    "YIELD 1;" (fun _ => .error (.ThriftError { io := none })) [] (fun _ => .ok [])
    respSucceeded).2.2.1 rfl

/-- Sequential get_next_addr calls walk the host list cyclically: from any
index at most the list length, the n-th subsequent call reads entry
(start + n) mod length. -/
theorem nth_next_addr_formula (H : List HostAddress) (hne : H ≠ []) :
    ∀ (n : Nat) (c : SingleConnSessionConf), c.host_addrs = H → c.host_idx ≤ H.length →
      c.nth_next_addr n = H.getD ((c.host_idx + n) % H.length) { host := "", port := 0 } := by
  intro n
  induction n with
  | zero =>
    intro c hH hle
    simp only [SingleConnSessionConf.nth_next_addr, SingleConnSessionConf.get_next_addr]
    rw [hH]
    by_cases hge : c.host_idx ≥ H.length
    · have hidx : c.host_idx = H.length := le_antisymm hle hge
      simp [hge, hidx, Nat.mod_self]
    · have hlt : c.host_idx < H.length := lt_of_not_ge hge
      simp [hge, Nat.mod_eq_of_lt hlt]
  | succ n ih =>
    intro c hH hle
    have hL : 0 < H.length := List.length_pos.mpr hne
    simp only [SingleConnSessionConf.nth_next_addr]
    have hH2 : c.get_next_addr.2.host_addrs = H := by
      simp [SingleConnSessionConf.get_next_addr, hH]
    by_cases hge : c.host_idx ≥ H.length
    · have hidx : c.host_idx = H.length := le_antisymm hle hge
      have hI2 : c.get_next_addr.2.host_idx = 1 := by
        simp [SingleConnSessionConf.get_next_addr, hH, hge]
      have h2 := ih c.get_next_addr.2 hH2 (by rw [hI2]; omega)
      rw [hI2] at h2
      rw [h2, hidx, Nat.add_mod_left, Nat.add_comm 1 n]
    · have hlt : c.host_idx < H.length := lt_of_not_ge hge
      have hI2 : c.get_next_addr.2.host_idx = c.host_idx + 1 := by
        simp [SingleConnSessionConf.get_next_addr, hH, hge]
      have h2 := ih c.get_next_addr.2 hH2 (by rw [hI2]; omega)
      rw [hI2] at h2
      have hnum : c.host_idx + 1 + n = c.host_idx + (n + 1) := by omega
      rw [h2, hnum]

/-- Claim C2: from a non-empty host list and cursor 0, sequential
get_next_addr calls return the hosts in order for the first |H| calls, the
(|H|+1)-st call wraps to the first host, and in general the (n+1)-st call
returns entry n mod |H|. -/
theorem SingleConnSessionConf.get_next_addr_round_robin (c : SingleConnSessionConf)
    (hne : c.host_addrs ≠ []) (h0 : c.host_idx = 0) :
    (∀ n, n < c.host_addrs.length →
      c.nth_next_addr n = c.host_addrs.getD n { host := "", port := 0 }) ∧
    (c.nth_next_addr c.host_addrs.length =
      c.host_addrs.getD 0 { host := "", port := 0 }) ∧
    (∀ n, c.nth_next_addr n =
      c.host_addrs.getD (n % c.host_addrs.length) { host := "", port := 0 }) := by
  have key : ∀ n, c.nth_next_addr n =
      c.host_addrs.getD (n % c.host_addrs.length) { host := "", port := 0 } := by
    intro n
    have h := nth_next_addr_formula c.host_addrs hne n c rfl (by omega)
    rw [h0] at h
    simpa using h
  refine ⟨fun n hn => ?_, ?_, key⟩
  · rw [key n, Nat.mod_eq_of_lt hn]
  · rw [key, Nat.mod_self]

/-- Concrete instance of the C2 theorem: with hosts [a, b, c] the fourth call
wraps around to the first host. -/
theorem SingleConnSessionConf.get_next_addr_round_robin_witness :
    (SingleConnSessionConf.new
        [{ host := "a", port := 1 }, { host := "b", port := 2 }, { host := "c", port := 3 }]
        "root" "pw" none).nth_next_addr 3 = { host := "a", port := 1 } := by
  have h := (SingleConnSessionConf.get_next_addr_round_robin
    (SingleConnSessionConf.new
      [{ host := "a", port := 1 }, { host := "b", port := 2 }, { host := "c", port := 3 }]
      "root" "pw" none) (by simp [SingleConnSessionConf.new]) rfl).2.1
  simpa [SingleConnSessionConf.new] using h

/-- optionMapM preserves length on success. -/
theorem optionMapM_length {α β : Type} (f : α → Option β) :
    ∀ (l : List α) (out : List β), optionMapM f l = some out → out.length = l.length := by
  intro l
  induction l with
  | nil => intro out h; simp only [optionMapM] at h; cases h; rfl
  | cons a rest ih =>
    intro out h
    simp only [optionMapM] at h
    cases hf : f a with
    | none => rw [hf] at h; cases h
    | some b =>
      rw [hf] at h
      cases hr : optionMapM f rest with
      | none => rw [hr] at h; cases h
      | some bs =>
        rw [hr] at h
        cases h
        simpa using ih bs hr

/-- optionMapM computes pointwise on success. -/
theorem optionMapM_get? {α β : Type} (f : α → Option β) :
    ∀ (l : List α) (out : List β), optionMapM f l = some out →
      ∀ (r : Nat) (a : α), l.get? r = some a → out.get? r = f a := by
  intro l
  induction l with
  | nil => intro out h r a ha; simp at ha
  | cons x rest ih =>
    intro out h r a ha
    simp only [optionMapM] at h
    cases hf : f x with
    | none => rw [hf] at h; cases h
    | some b =>
      rw [hf] at h
      cases hr : optionMapM f rest with
      | none => rw [hr] at h; cases h
      | some bs =>
        rw [hr] at h
        cases h
        cases r with
        | zero => simp at ha; subst ha; simpa using hf.symm
        | succ r2 =>
          simp only [List.get?] at ha ⊢
          exact ih bs hr r2 a ha

/-- The index of the last occurrence of a key in a list (specification-side
companion of the HashMap insert loop of DataSetWrapper::new). -/
def lastIdxOf : List (List Nat) → List Nat → Option Nat
  | [], _ => none
  | n :: rest, k =>
    match lastIdxOf rest k with
    | some j => some (j + 1)
    | none => if n = k then some 0 else none

/-- lastIdxOf is sound: it points at an occurrence. -/
theorem lastIdxOf_sound :
    ∀ (names : List (List Nat)) (k : List Nat) (j : Nat),
      lastIdxOf names k = some j → names.get? j = some k := by
  intro names
  induction names with
  | nil => intro k j h; cases h
  | cons n rest ih =>
    intro k j h
    simp only [lastIdxOf] at h
    cases hr : lastIdxOf rest k with
    | some j2 =>
      rw [hr] at h
      cases h
      simpa using ih k j2 hr
    | none =>
      rw [hr] at h
      by_cases hk : n = k
      · rw [if_pos hk] at h
        cases h
        simpa using hk
      · rw [if_neg hk] at h
        cases h

/-- lastIdxOf finds an occurrence after which the key does not occur again. -/
theorem lastIdxOf_of_last :
    ∀ (names : List (List Nat)) (k : List Nat) (i : Nat),
      names.get? i = some k → (∀ j, i < j → names.get? j ≠ some k) →
      lastIdxOf names k = some i := by
  intro names
  induction names with
  | nil => intro k i hi _; simp at hi
  | cons n rest ih =>
    intro k i hi hafter
    cases i with
    | zero =>
      simp only [List.get?] at hi
      cases hi
      simp only [lastIdxOf]
      cases hr : lastIdxOf rest n with
      | some j =>
        exact absurd (by simpa using lastIdxOf_sound rest n j hr)
          (hafter (j + 1) (by omega))
      | none => simp [hr]
    | succ i2 =>
      simp only [List.get?] at hi
      have hafter2 : ∀ j, i2 < j → rest.get? j ≠ some k := by
        intro j hj
        have := hafter (j + 1) (by omega)
        simpa using this
      simp only [lastIdxOf, ih k i2 hi hafter2]

/-- The column-name map built by DataSetWrapper::new sends each name to the
index of its last occurrence (offset by the starting index of the walk). -/
theorem insertColNames_eq :
    ∀ (names : List (List Nat)) (m : List Nat → Option Nat) (i : Nat) (k : List Nat),
      insertColNames m i names k =
        match lastIdxOf names k with
        | some j => some (i + j)
        | none => m k := by
  intro names
  induction names with
  | nil => intro m i k; rfl
  | cons n rest ih =>
    intro m i k
    simp only [insertColNames, lastIdxOf]
    rw [ih]
    cases h : lastIdxOf rest k with
    | some j =>
      simp only []
      congr 1
      omega
    | none =>
      simp only []
      by_cases hk : n = k
      · subst hk
        simp
      · rw [if_neg hk, if_neg (fun hkn => hk hkn.symm)]

/-- Claim C8: when column names repeat, the name-to-index map built at
DataSetWrapper construction binds the name to its last occurrence, and
get_values_by_col_name returns the values of the column at that last index. -/
theorem DataSetWrapper.duplicate_col_name_last_wins (ds : DataSet) (tz : TimezoneInfo)
    (name : String) (i : Nat)
    (hget : ds.column_names.get? i = some (utf8Encode name))
    (hlast : ∀ j, i < j → ds.column_names.get? j ≠ some (utf8Encode name)) :
    ((DataSetWrapper.new ds tz).col_name_index_map (utf8Encode name) = some i) ∧
    ∀ vals, (DataSetWrapper.new ds tz).get_values_by_col_name name = some (.ok vals) →
      vals.length = ds.rows.length ∧
      ∀ (r : Nat) (row : Row), ds.rows.get? r = some row →
        vals.get? r = (row.values.get? i).map (fun v => ValueWrapper.new v tz) := by
  have hmap : (DataSetWrapper.new ds tz).col_name_index_map (utf8Encode name) = some i := by
    show insertColNames (fun _ => none) 0 ds.column_names (utf8Encode name) = some i
    rw [insertColNames_eq, lastIdxOf_of_last ds.column_names (utf8Encode name) i hget hlast]
    simp
  refine ⟨hmap, fun vals hvals => ?_⟩
  have hcol : (DataSetWrapper.new ds tz).has_col_name name = true := by
    simp [DataSetWrapper.has_col_name, hmap]
  have hvals2 : optionMapM
      (fun row => (row.values.get? i).map (fun v => ValueWrapper.new v tz)) ds.rows
      = some vals := by
    unfold DataSetWrapper.get_values_by_col_name at hvals
    rw [hcol] at hvals
    simp only [not_true_eq_false, if_false, hmap, Option.map_eq_some'] at hvals
    obtain ⟨a, ha, hav⟩ := hvals
    injection hav with h
    subst h
    exact ha
  exact ⟨optionMapM_length _ ds.rows vals hvals2,
    fun r row hrow => optionMapM_get? _ ds.rows vals hvals2 r row hrow⟩

/-- Concrete instance of the C8 theorem: columns [a, b, a]; the map binds a to
index 2 (the last occurrence). -/
theorem DataSetWrapper.duplicate_col_name_last_wins_witness :
    (DataSetWrapper.new
        { column_names := [[97], [98], [97]],
          rows := [{ values := [Value.iVal 1, Value.iVal 2, Value.iVal 3] }] }
        {}).col_name_index_map (utf8Encode "a") = some 2 :=
  (DataSetWrapper.duplicate_col_name_last_wins
    { column_names := [[97], [98], [97]],
      rows := [{ values := [Value.iVal 1, Value.iVal 2, Value.iVal 3] }] }
    {} "a" 2 (by rfl)
    (fun j hj => by
      obtain ⟨k, rfl⟩ : ∃ k, j = k + 3 := ⟨j - 3, by omega⟩
      simp [List.get?])).1

/-- Claim C9: is_empty is true exactly when the column count is zero; a
dataset with columns but no rows is not empty and scans to the empty list. -/
theorem DataSetWrapper.is_empty_iff_no_columns (ds : DataSet) (tz : TimezoneInfo) :
    ((DataSetWrapper.new ds tz).is_empty = true ↔ ds.column_names = []) ∧
    (ds.column_names ≠ [] → ds.rows = [] →
      (DataSetWrapper.new ds tz).is_empty = false ∧
      ∀ (D : Type) (des : List (List Nat) → List Value → Except DataDeserializeError D),
        (DataSetWrapper.new ds tz).scan des = .ok []) := by
  have hempty : (DataSetWrapper.new ds tz).is_empty = true ↔ ds.column_names = [] := by
    simp [DataSetWrapper.is_empty, DataSetWrapper.get_col_size, DataSetWrapper.get_col_names,
      DataSetWrapper.new, List.length_eq_zero]
  refine ⟨hempty, fun hcols hrows => ⟨?_, fun D des => ?_⟩⟩
  · rw [Bool.eq_false_iff]
    intro h
    exact hcols (hempty.mp h)
  · unfold DataSetWrapper.scan
    by_cases he : (DataSetWrapper.new ds tz).is_empty
    · rw [if_pos he]
    · rw [if_neg he]
      show scanRows des _ (DataSetWrapper.new ds tz).get_rows = .ok []
      have : (DataSetWrapper.new ds tz).get_rows = ds.rows := rfl
      rw [this, hrows]
      rfl

/-- Concrete instance of the C9 theorem: one column, zero rows. -/
theorem DataSetWrapper.is_empty_iff_no_columns_witness :
    (DataSetWrapper.new { column_names := [[97]], rows := [] } {}).is_empty = false ∧
    (DataSetWrapper.new { column_names := [[97]], rows := [] } {}).scan
      (fun _ _ => (.ok 0 : Except DataDeserializeError Nat)) = .ok [] := by
  have h := (DataSetWrapper.is_empty_iff_no_columns
    { column_names := [[97]], rows := [] } {}).2 (by simp) rfl
  exact ⟨h.1, h.2 Nat (fun _ _ => .ok 0)⟩

/-- Claim C10 (code bug): Record::get_value_by_index guards with a strict
greater-than, so at index = n (the record length) the guard passes and the
vector access panics instead of returning InvalidIndexError(n, n); in-range
indices still return the i-th wrapper. -/
theorem Record.get_value_by_index_out_of_bounds_panics :
    ({ column_names := [[97]],
       records := [ValueWrapper.new (Value.iVal 7) {}],
       col_name_index_map := fun _ => none,
       timezone_info := {} } : Record).get_value_by_index 1 = none ∧
    ({ column_names := [[97]],
       records := [ValueWrapper.new (Value.iVal 7) {}],
       col_name_index_map := fun _ => none,
       timezone_info := {} } : Record).get_value_by_index 0 =
      some (.ok (ValueWrapper.new (Value.iVal 7) {})) ∧
    ({ column_names := [[97]],
       records := [ValueWrapper.new (Value.iVal 7) {}],
       col_name_index_map := fun _ => none,
       timezone_info := {} } : Record).get_value_by_index 2 =
      some (.error (.InvalidIndexError 2 1)) :=
  ⟨rfl, rfl, rfl⟩

/-- Claim C6: whenever as_string_table returns, row 0 is the column names
decoded from UTF-8, the following rows are the rendered dataset rows in
order, and an empty outer list occurs only for a dataset with zero columns
(vacuously, as the outer list always carries the header row). -/
theorem DataSetWrapper.as_string_table_shape (ds : DataSet) (tz : TimezoneInfo)
    (tbl : List (List String))
    (h : (DataSetWrapper.new ds tz).as_string_table = some tbl) :
    (∃ hdr, optionMapM utf8Decode ds.column_names = some hdr ∧
      tbl.head? = some hdr ∧ hdr.length = ds.column_names.length) ∧
    tbl.length = 1 + ds.rows.length ∧
    (∀ (r : Nat) (row : Row), ds.rows.get? r = some row →
      ∃ cells,
        optionMapM (fun v => (ValueWrapper.new v tz).toStringRendered) row.values =
          some cells ∧
        tbl.get? (r + 1) = some cells) ∧
    (tbl = [] → ds.column_names = []) := by
  unfold DataSetWrapper.as_string_table at h
  cases hhdr : optionMapM (fun v => utf8Decode v) (DataSetWrapper.new ds tz).get_col_names with
  | none => rw [hhdr] at h; cases h
  | some hdr =>
    rw [hhdr] at h
    cases hrows : optionMapM
        (fun row =>
          optionMapM
            (fun v => (ValueWrapper.new v (DataSetWrapper.new ds tz).timezone_info).toStringRendered)
            row.values)
        (DataSetWrapper.new ds tz).get_rows with
    | none => rw [hrows] at h; cases h
    | some rows_table =>
      rw [hrows] at h
      have htbl : tbl = hdr :: rows_table := by
        injection h with h2
        exact h2.symm
      subst htbl
      have hcols : (DataSetWrapper.new ds tz).get_col_names = ds.column_names := rfl
      rw [hcols] at hhdr
      have hrows2 : optionMapM
          (fun row =>
            optionMapM (fun v => (ValueWrapper.new v tz).toStringRendered) row.values)
          ds.rows = some rows_table := hrows
      refine ⟨⟨hdr, hhdr, rfl, optionMapM_length _ ds.column_names hdr hhdr⟩, ?_, ?_, ?_⟩
      · have hlen := optionMapM_length _ ds.rows rows_table hrows2
        simp [hlen, Nat.add_comm]
      · intro r row hrow
        have hpt := optionMapM_get? _ ds.rows rows_table hrows2 r row hrow
        have hr : r < ds.rows.length := by
          by_contra hge
          rw [List.get?_eq_none.mpr (by omega)] at hrow
          cases hrow
        have hlen : rows_table.length = ds.rows.length :=
          optionMapM_length _ ds.rows rows_table hrows2
        have hsome : ∃ cells, rows_table.get? r = some cells := by
          cases hx : rows_table.get? r with
          | none => exact absurd (List.get?_eq_none.mp hx) (by omega)
          | some c => exact ⟨c, rfl⟩
        obtain ⟨cells, hcells⟩ := hsome
        rw [hcells] at hpt
        exact ⟨cells, hpt.symm, by simpa [List.get?_cons_succ] using hcells⟩
      · intro habs
        cases habs

/-- Concrete instance of the C6 theorem: two columns, one row, int and string
values. -/
theorem DataSetWrapper.as_string_table_shape_witness :
    ([["a", "b"], ["3", "\"hi\""]] : List (List String)).length =
      1 + ({ column_names := [[97], [98]],
             rows := [{ values := [Value.iVal 3, Value.sVal [104, 105]] }] } : DataSet).rows.length :=
  (DataSetWrapper.as_string_table_shape
    { column_names := [[97], [98]],
      rows := [{ values := [Value.iVal 3, Value.sVal [104, 105]] }] } {}
    [["a", "b"], ["3", "\"hi\""]] (by rfl)).2.1

/-- Claim C7 counterexample: with default space nba and a successful session
setup, the statement the session executes is the literal `Use nba;`, which is
not the claimed literal `USE nba;`. -/
theorem SingleConnSessionManager.get_session_use_statement_counterexample :
    (({ config := SingleConnSessionConf.new [{ host := "h", port := 1 }] "root" "pw"
          (some "nba") } : SingleConnSessionManager).get_session
        (fun _ => .ok ()) (.ok 5) (fun _ => .ok respSucceeded)).executed = ["Use nba;"] ∧
    "Use nba;" ≠ "USE nba;" :=
  ⟨rfl, by decide⟩

/-- Claim C7 (amended): when the manager config carries a default space, a
successfully built and authenticated session executes the single statement
`Use <space>;` (capitalized `Use`, not `USE`) before being returned, and any
failure of that statement becomes the result of get_session; on success the
session state after the statement is returned. -/
theorem SingleConnSessionManager.get_session_use_statement
    (m : SingleConnSessionManager) (sp : String) (sid : Int)
    (transport : String → Except IoError Unit)
    (rpc : List Nat → Except ExecuteError ExecutionResponse)
    (hsp : m.config.space = some sp)
    (htr : transport (m.config.get_next_addr.1.to_string) = .ok ()) :
    ((m.get_session transport (.ok sid) rpc).executed = ["Use " ++ sp ++ ";"]) ∧
    (∀ e, ((SingleConnSession.new {} sid).query ("Use " ++ sp ++ ";") rpc).2 = .error e →
      (m.get_session transport (.ok sid) rpc).result = .error e) ∧
    (∀ out, ((SingleConnSession.new {} sid).query ("Use " ++ sp ++ ";") rpc).2 = .ok out →
      (m.get_session transport (.ok sid) rpc).result =
        .ok ((SingleConnSession.new {} sid).query ("Use " ++ sp ++ ";") rpc).1) := by
  rcases hq : (SingleConnSession.new {} sid).query ("Use " ++ sp ++ ";") rpc with ⟨s1, r⟩
  cases r with
  | error e =>
    have hex : (SingleConnSession.new {} sid).execute ("Use " ++ sp ++ ";") rpc =
        (s1, .error e) := by
      unfold SingleConnSession.execute
      rw [hq]
    refine ⟨?_, fun e2 he2 => ?_, fun out hout => ?_⟩
    · simp only [SingleConnSessionManager.get_session, hsp, htr, hex]
    · simp only at he2
      cases he2
      simp only [SingleConnSessionManager.get_session, hsp, htr, hex]
    · simp at hout
  | ok out =>
    have hex : (SingleConnSession.new {} sid).execute ("Use " ++ sp ++ ";") rpc =
        (s1, .ok ()) := by
      unfold SingleConnSession.execute
      rw [hq]
    refine ⟨?_, fun e2 he2 => ?_, fun out2 hout2 => ?_⟩
    · simp only [SingleConnSessionManager.get_session, hsp, htr, hex]
    · simp at he2
    · simp only [SingleConnSessionManager.get_session, hsp, htr, hex]

/-- Concrete instance of the C7 amended theorem: a failing Use statement makes
get_session fail with that error. -/
theorem SingleConnSessionManager.get_session_use_statement_witness :
    (({ config := SingleConnSessionConf.new [{ host := "h", port := 1 }] "root" "pw"
          (some "nba") } : SingleConnSessionManager).get_session
        (fun _ => .ok ()) (.ok 5)
        (fun _ => .error (.ApplicationException "boom"))).result =
      .error (.GraphQueryError (.ExecuteError (.ApplicationException "boom"))) := by
  have h := SingleConnSessionManager.get_session_use_statement
    { config := SingleConnSessionConf.new [{ host := "h", port := 1 }] "root" "pw"
        (some "nba") } "nba" 5 (fun _ => .ok ())
    (fun _ => .error (.ApplicationException "boom")) rfl rfl
  exact h.2.1 _ rfl

/-- The common shape of the tag and edge insert loops of load_all: keep the
stored item unless the incoming one has a strictly higher version. -/
def itemUpsert {α : Type} (keyOf : α → List Nat) (verOf : α → Int)
    (m : List Nat → Option α) (x : α) : List Nat → Option α :=
  match m (keyOf x) with
  | none => fun k => if k = keyOf x then some x else m k
  | some old =>
    if verOf old < verOf x then (fun k => if k = keyOf x then some x else m k) else m

/-- tagFoldStep is the upsert instantiated at tag names and versions. -/
theorem tagFoldStep_eq :
    tagFoldStep = itemUpsert TagItem.tag_name TagItem.version := by
  funext m tag
  unfold tagFoldStep itemUpsert
  cases m tag.tag_name <;> rfl

/-- edgeFoldStep is the upsert instantiated at edge names and versions. -/
theorem edgeFoldStep_eq :
    edgeFoldStep = itemUpsert EdgeItem.edge_name EdgeItem.version := by
  funext m edge
  unfold edgeFoldStep itemUpsert
  cases m edge.edge_name <;> rfl

/-- An upsert leaves every other key alone. -/
theorem itemUpsert_other {α : Type} (keyOf : α → List Nat) (verOf : α → Int)
    (m : List Nat → Option α) (x : α) (k : List Nat) (hk : k ≠ keyOf x) :
    itemUpsert keyOf verOf m x k = m k := by
  unfold itemUpsert
  cases m (keyOf x) with
  | none => simp [hk]
  | some old =>
    by_cases hv : verOf old < verOf x
    · simp [hv, hk]
    · simp [hv]

/-- After an upsert the key of the inserted item holds an item whose version
dominates both the inserted item and whatever was stored before. -/
theorem itemUpsert_at_key {α : Type} (keyOf : α → List Nat) (verOf : α → Int)
    (m : List Nat → Option α) (x : α) :
    ∃ w, itemUpsert keyOf verOf m x (keyOf x) = some w ∧ verOf x ≤ verOf w ∧
      (w = x ∨ m (keyOf x) = some w) ∧
      (∀ v, m (keyOf x) = some v → verOf v ≤ verOf w) := by
  unfold itemUpsert
  cases hm : m (keyOf x) with
  | none =>
    refine ⟨x, by simp, le_refl _, Or.inl rfl, ?_⟩
    intro v hv
    cases hv
  | some old =>
    by_cases hv : verOf old < verOf x
    · refine ⟨x, by simp [hv], le_refl _, Or.inl rfl, ?_⟩
      intro v hveq
      injection hveq with h
      rw [← h]
      exact le_of_lt hv
    · refine ⟨old, by simp [hv, hm], le_of_not_lt hv, Or.inr rfl, ?_⟩
      intro v hveq
      injection hveq with h
      rw [← h]

/-- The version stored at a key never decreases along the fold. -/
theorem itemFold_ge {α : Type} (keyOf : α → List Nat) (verOf : α → Int) :
    ∀ (l : List α) (m : List Nat → Option α) (k : List Nat) (v : α),
      m k = some v →
      ∃ t, (l.foldl (itemUpsert keyOf verOf) m) k = some t ∧ verOf v ≤ verOf t := by
  intro l
  induction l with
  | nil => intro m k v hv; exact ⟨v, hv, le_refl _⟩
  | cons x rest ih =>
    intro m k v hv
    simp only [List.foldl_cons]
    by_cases hk : k = keyOf x
    · subst hk
      obtain ⟨w, hw, _, _, hdom⟩ := itemUpsert_at_key keyOf verOf m x
      obtain ⟨t, ht, hle⟩ := ih _ (keyOf x) w hw
      exact ⟨t, ht, le_trans (hdom v hv) hle⟩
    · exact ih _ k v (by rw [itemUpsert_other keyOf verOf m x k hk]; exact hv)

/-- Everything the fold stores comes from the seed map or from the list, with
a matching key. -/
theorem itemFold_mem {α : Type} (keyOf : α → List Nat) (verOf : α → Int) :
    ∀ (l : List α) (m : List Nat → Option α) (k : List Nat) (t : α),
      (l.foldl (itemUpsert keyOf verOf) m) k = some t →
      m k = some t ∨ (t ∈ l ∧ keyOf t = k) := by
  intro l
  induction l with
  | nil => intro m k t h; exact Or.inl h
  | cons x rest ih =>
    intro m k t h
    simp only [List.foldl_cons] at h
    rcases ih (itemUpsert keyOf verOf m x) k t h with h2 | h2
    · by_cases hk : k = keyOf x
      · subst hk
        obtain ⟨w, hw, _, hsrc, _⟩ := itemUpsert_at_key keyOf verOf m x
        rw [hw] at h2
        injection h2 with h3
        subst h3
        rcases hsrc with h4 | h4
        · exact Or.inr ⟨by simp [h4], by rw [h4]⟩
        · exact Or.inl h4
      · rw [itemUpsert_other keyOf verOf m x k hk] at h2
        exact Or.inl h2
    · exact Or.inr ⟨List.mem_cons_of_mem _ h2.1, h2.2⟩

/-- A key observed in the list is present after the fold. -/
theorem itemFold_observed {α : Type} (keyOf : α → List Nat) (verOf : α → Int) :
    ∀ (l : List α) (m : List Nat → Option α) (k : List Nat),
      (∃ u ∈ l, keyOf u = k) →
      ∃ t, (l.foldl (itemUpsert keyOf verOf) m) k = some t := by
  intro l
  induction l with
  | nil => intro m k h; simp at h
  | cons x rest ih =>
    intro m k h
    simp only [List.foldl_cons]
    by_cases hk : keyOf x = k
    · subst hk
      obtain ⟨w, hw, _, _, _⟩ := itemUpsert_at_key keyOf verOf m x
      obtain ⟨t, ht, _⟩ := itemFold_ge keyOf verOf rest (itemUpsert keyOf verOf m x) _ w hw
      exact ⟨t, ht⟩
    · rcases h with ⟨u, hu, hku⟩
      rcases List.mem_cons.mp hu with h2 | h2
      · exact absurd (by rw [← h2]; exact hku) hk
      · exact ih (itemUpsert keyOf verOf m x) k ⟨u, h2, hku⟩

/-- The stored item has the maximum version among the observed items with its
key. -/
theorem itemFold_max {α : Type} (keyOf : α → List Nat) (verOf : α → Int) :
    ∀ (l : List α) (m : List Nat → Option α) (k : List Nat) (t : α),
      (l.foldl (itemUpsert keyOf verOf) m) k = some t →
      ∀ u ∈ l, keyOf u = k → verOf u ≤ verOf t := by
  intro l
  induction l with
  | nil => intro m k t _ u hu; simp at hu
  | cons x rest ih =>
    intro m k t ht u hu hku
    simp only [List.foldl_cons] at ht
    rcases List.mem_cons.mp hu with h2 | h2
    · subst h2
      subst hku
      obtain ⟨w, hw, hxw, _, _⟩ := itemUpsert_at_key keyOf verOf m u
      obtain ⟨t2, ht2, hle2⟩ := itemFold_ge keyOf verOf rest (itemUpsert keyOf verOf m u) _ w hw
      rw [ht] at ht2
      injection ht2 with h3
      rw [← h3] at hle2
      exact le_trans hxw hle2
    · exact ih (itemUpsert keyOf verOf m x) k t ht u h2 hku

/-- Everything stored in a fold-built insert map comes from the seed or from a
list element with a matching key (used for the space cache table). -/
theorem foldInsert_lookup {α β : Type} (key : α → List Nat) (f : α → β) :
    ∀ (l : List α) (m : List Nat → Option β) (k : List Nat) (b : β),
      (l.foldl (fun m2 a => fun k2 => if k2 = key a then some (f a) else m2 k2) m) k =
        some b →
      m k = some b ∨ ∃ a ∈ l, key a = k ∧ b = f a := by
  intro l
  induction l with
  | nil => intro m k b h; exact Or.inl h
  | cons x rest ih =>
    intro m k b h
    simp only [List.foldl_cons] at h
    rcases ih _ k b h with h2 | h2
    · by_cases hk : k = key x
      · rw [if_pos hk] at h2
        injection h2 with h3
        exact Or.inr ⟨x, by simp, hk.symm, h3.symm⟩
      · rw [if_neg hk] at h2
        exact Or.inl h2
    · rcases h2 with ⟨a, ha, hka, hb⟩
      exact Or.inr ⟨a, List.mem_cons_of_mem _ ha, hka, hb⟩

/-- buildTagItems as a fold of the generic upsert. -/
theorem buildTagItems_eq (tags : List TagItem) :
    buildTagItems tags =
      tags.foldl (itemUpsert TagItem.tag_name TagItem.version) (fun _ => none) := by
  unfold buildTagItems
  rw [tagFoldStep_eq]

/-- buildEdgeItems as a fold of the generic upsert. -/
theorem buildEdgeItems_eq (edges : List EdgeItem) :
    buildEdgeItems edges =
      edges.foldl (itemUpsert EdgeItem.edge_name EdgeItem.version) (fun _ => none) := by
  unfold buildEdgeItems
  rw [edgeFoldStep_eq]

/-- Claim C4: after a successful load_all, for every cached space and every
tag (edge) name observed in its listTags (listEdges) response, the cached
item under that name is an observed item of that name with the maximum
observed version; moreover one more observation with a strictly higher
version overwrites the stored item, while one with an equal or lower version
leaves the map unchanged. -/
theorem MetaClient.load_all_max_version (data : MetaRpcData) (spaceName : List Nat)
    (sc : SpaceCache) (name : List Nat)
    (hsc : (MetaClient.load_all_ok data).space_caches spaceName = some sc) :
    ((∃ t ∈ data.tags sc.space_id, t.tag_name = name) →
      ∃ t, sc.tag_items name = some t ∧ t ∈ data.tags sc.space_id ∧ t.tag_name = name ∧
        ∀ u ∈ data.tags sc.space_id, u.tag_name = name → u.version ≤ t.version) ∧
    ((∃ e ∈ data.edges sc.space_id, e.edge_name = name) →
      ∃ e, sc.edge_items name = some e ∧ e ∈ data.edges sc.space_id ∧ e.edge_name = name ∧
        ∀ u ∈ data.edges sc.space_id, u.edge_name = name → u.version ≤ e.version) ∧
    (∀ (tags : List TagItem) (t stored : TagItem),
      buildTagItems tags t.tag_name = some stored →
      (stored.version < t.version → buildTagItems (tags ++ [t]) t.tag_name = some t) ∧
      (t.version ≤ stored.version → buildTagItems (tags ++ [t]) = buildTagItems tags)) ∧
    (∀ (edges : List EdgeItem) (e stored : EdgeItem),
      buildEdgeItems edges e.edge_name = some stored →
      (stored.version < e.version → buildEdgeItems (edges ++ [e]) e.edge_name = some e) ∧
      (e.version ≤ stored.version → buildEdgeItems (edges ++ [e]) = buildEdgeItems edges)) := by
  have hlook : (data.spaces.foldl
      (fun m space => fun k => if k = space.name then some (mkSpaceCache data space) else m k)
      (fun _ => none)) spaceName = some sc := hsc
  have hsp : ∃ sp ∈ data.spaces, sp.name = spaceName ∧ sc = mkSpaceCache data sp := by
    rcases foldInsert_lookup (fun sp => IdName.name sp) (fun sp => mkSpaceCache data sp)
        data.spaces (fun _ => none) spaceName sc hlook with h | ⟨a, ha, hka, hb⟩
    · cases h
    · exact ⟨a, ha, hka, hb⟩
  obtain ⟨sp, hmem, hname, hmk⟩ := hsp
  subst hmk
  refine ⟨?_, ?_, ?_, ?_⟩
  · intro ⟨t0, ht0, hn0⟩
    have hobs := itemFold_observed TagItem.tag_name TagItem.version
      (data.tags (mkSpaceCache data sp).space_id) (fun _ => none) name ⟨t0, ht0, hn0⟩
    obtain ⟨t, ht⟩ := hobs
    have ht2 : (mkSpaceCache data sp).tag_items name = some t := by
      show buildTagItems _ name = some t
      rw [buildTagItems_eq]
      exact ht
    rcases itemFold_mem TagItem.tag_name TagItem.version _ _ name t ht with h | ⟨hm, hk⟩
    · cases h
    · exact ⟨t, ht2, hm, hk,
        fun u hu hku => itemFold_max TagItem.tag_name TagItem.version _ _ name t ht u hu hku⟩
  · intro ⟨e0, he0, hn0⟩
    have hobs := itemFold_observed EdgeItem.edge_name EdgeItem.version
      (data.edges (mkSpaceCache data sp).space_id) (fun _ => none) name ⟨e0, he0, hn0⟩
    obtain ⟨e, he⟩ := hobs
    have he2 : (mkSpaceCache data sp).edge_items name = some e := by
      show buildEdgeItems _ name = some e
      rw [buildEdgeItems_eq]
      exact he
    rcases itemFold_mem EdgeItem.edge_name EdgeItem.version _ _ name e he with h | ⟨hm, hk⟩
    · cases h
    · exact ⟨e, he2, hm, hk,
        fun u hu hku => itemFold_max EdgeItem.edge_name EdgeItem.version _ _ name e he u hu hku⟩
  · intro tags t stored hstored
    have happ : buildTagItems (tags ++ [t]) = tagFoldStep (buildTagItems tags) t := by
      unfold buildTagItems
      rw [List.foldl_append]
      rfl
    constructor
    · intro hlt
      rw [happ, tagFoldStep_eq]
      unfold itemUpsert
      simp only [hstored, hlt, if_true]
    · intro hle
      rw [happ, tagFoldStep_eq]
      unfold itemUpsert
      simp only [hstored]
      rw [if_neg (not_lt.mpr hle)]
  · intro edges e stored hstored
    have happ : buildEdgeItems (edges ++ [e]) = edgeFoldStep (buildEdgeItems edges) e := by
      unfold buildEdgeItems
      rw [List.foldl_append]
      rfl
    constructor
    · intro hlt
      rw [happ, edgeFoldStep_eq]
      unfold itemUpsert
      simp only [hstored, hlt, if_true]
    · intro hle
      rw [happ, edgeFoldStep_eq]
      unfold itemUpsert
      simp only [hstored]
      rw [if_neg (not_lt.mpr hle)]

/-- Concrete meta responses: one space, one tag name observed at versions
1, 3, 2. -/
def metaDataW : MetaRpcData :=
  { spaces := [{ id := .space_id 1, name := [115] }],
    parts_alloc := fun _ => [],
    tags := fun _ =>
      [{ tag_id := 10, tag_name := [97], version := 1, schema := { columns := [] } },
       { tag_id := 11, tag_name := [97], version := 3, schema := { columns := [] } },
       { tag_id := 12, tag_name := [97], version := 2, schema := { columns := [] } }],
    edges := fun _ => [],
    hosts := [] }

/-- Concrete instance of the C4 theorem on metaDataW. -/
theorem MetaClient.load_all_max_version_witness :
    ∃ t, (mkSpaceCache metaDataW { id := .space_id 1, name := [115] }).tag_items [97] =
        some t ∧
      t ∈ metaDataW.tags (mkSpaceCache metaDataW { id := .space_id 1, name := [115] }).space_id ∧
      t.tag_name = [97] ∧
      ∀ u ∈ metaDataW.tags
          (mkSpaceCache metaDataW { id := .space_id 1, name := [115] }).space_id,
        u.tag_name = [97] → u.version ≤ t.version :=
  (MetaClient.load_all_max_version metaDataW [115]
    (mkSpaceCache metaDataW { id := .space_id 1, name := [115] }) [97] rfl).1
    ⟨{ tag_id := 10, tag_name := [97], version := 1, schema := { columns := [] } },
      by simp [metaDataW], rfl⟩

/-- Lookup distributes over appending connection-map entries. -/
theorem lookupConn_append :
    ∀ (a b : List (HostAddr × StorageConnection)) (h : HostAddr),
      lookupConn (a ++ b) h =
        match lookupConn a h with
        | some c => some c
        | none => lookupConn b h := by
  intro a
  induction a with
  | nil => intro b h; rfl
  | cons kc rest ih =>
    intro b h
    obtain ⟨k, c⟩ := kc
    simp only [List.cons_append, lookupConn]
    by_cases hk : k = h
    · rw [if_pos hk, if_pos hk]
    · rw [if_neg hk, if_neg hk]
      exact ih b h

/-- A hit in the base map survives appending. -/
theorem lookupConn_append_some (a b : List (HostAddr × StorageConnection)) (h : HostAddr)
    (c : StorageConnection) (hc : lookupConn a h = some c) :
    lookupConn (a ++ b) h = some c := by
  rw [lookupConn_append, hc]

/-- A miss in the base map defers to the appended entries. -/
theorem lookupConn_append_none (a b : List (HostAddr × StorageConnection)) (h : HostAddr)
    (hc : lookupConn a h = none) : lookupConn (a ++ b) h = lookupConn b h := by
  rw [lookupConn_append, hc]

/-- A miss over an append is a miss over the base. -/
theorem lookupConn_none_of_append (a b : List (HostAddr × StorageConnection)) (h : HostAddr)
    (hc : lookupConn (a ++ b) h = none) : lookupConn a h = none := by
  rw [lookupConn_append] at hc
  cases hl : lookupConn a h with
  | none => rfl
  | some c => rw [hl] at hc; cases hc

/-- Cached connections survive the connection loop. -/
theorem ensureConnections_preserves :
    ∀ (l : List (Int × HostAddr)) (cmap : List (HostAddr × StorageConnection))
      (h : HostAddr) (c : StorageConnection),
      lookupConn cmap h = some c → lookupConn (ensureConnections cmap l).1 h = some c := by
  intro l
  induction l with
  | nil => intro cmap h c hc; exact hc
  | cons ph rest ih =>
    intro cmap h c hc
    obtain ⟨p0, h0⟩ := ph
    simp only [ensureConnections]
    cases hl : lookupConn cmap h0 with
    | some c0 => exact ih cmap h c hc
    | none => exact ih _ h c (lookupConn_append_some cmap _ h c hc)

/-- After the connection loop every leader of the map has a connection. -/
theorem ensureConnections_covers :
    ∀ (l : List (Int × HostAddr)) (cmap : List (HostAddr × StorageConnection))
      (p : Int) (h : HostAddr), (p, h) ∈ l →
      ∃ c, lookupConn (ensureConnections cmap l).1 h = some c := by
  intro l
  induction l with
  | nil => intro cmap p h hm; simp at hm
  | cons ph rest ih =>
    intro cmap p h hm
    obtain ⟨p0, h0⟩ := ph
    simp only [ensureConnections]
    rcases List.mem_cons.mp hm with he | hm2
    · have hh : h = h0 := congrArg Prod.snd he
      subst hh
      cases hl : lookupConn cmap h with
      | some c0 => exact ⟨c0, ensureConnections_preserves rest cmap h c0 hl⟩
      | none =>
        refine ⟨StorageConnection.new h, ensureConnections_preserves rest _ h _ ?_⟩
        rw [lookupConn_append_none cmap _ h hl]
        simp [lookupConn]
    · cases hl : lookupConn cmap h0 with
      | some c0 => exact ih cmap p h hm2
      | none => exact ih _ p h hm2

/-- Every address the loop opened was missing from the incoming map and is a
leader of the part map. -/
theorem ensureConnections_opened_missing :
    ∀ (l : List (Int × HostAddr)) (cmap : List (HostAddr × StorageConnection))
      (h : HostAddr), h ∈ (ensureConnections cmap l).2 →
      lookupConn cmap h = none ∧ h ∈ l.map Prod.snd := by
  intro l
  induction l with
  | nil => intro cmap h hm; simp [ensureConnections] at hm
  | cons ph rest ih =>
    intro cmap h hm
    obtain ⟨p0, h0⟩ := ph
    simp only [ensureConnections] at hm
    cases hl : lookupConn cmap h0 with
    | some c0 =>
      rw [hl] at hm
      obtain ⟨h1, h2⟩ := ih cmap h hm
      exact ⟨h1, by simp [h2]⟩
    | none =>
      rw [hl] at hm
      rcases List.mem_cons.mp hm with he | hm2
      · subst he
        exact ⟨hl, by simp⟩
      · obtain ⟨h1, h2⟩ := ih _ h hm2
        exact ⟨lookupConn_none_of_append cmap _ h h1, by simp [h2]⟩

/-- Every leader missing from the incoming map gets opened by the loop. -/
theorem ensureConnections_missing_opened :
    ∀ (l : List (Int × HostAddr)) (cmap : List (HostAddr × StorageConnection))
      (h : HostAddr), h ∈ l.map Prod.snd → lookupConn cmap h = none →
      h ∈ (ensureConnections cmap l).2 := by
  intro l
  induction l with
  | nil => intro cmap h hm; simp at hm
  | cons ph rest ih =>
    intro cmap h hm hnone
    obtain ⟨p0, h0⟩ := ph
    simp only [ensureConnections]
    by_cases hh : h = h0
    · subst hh
      rw [hnone]
      simp
    · have hm2 : h ∈ rest.map Prod.snd := by
        rcases List.mem_map.mp hm with ⟨⟨pa, ha⟩, hma, hsnd⟩
        rcases List.mem_cons.mp hma with he | hr
        · exfalso
          apply hh
          rw [← hsnd, he]
        · exact List.mem_map.mpr ⟨⟨pa, ha⟩, hr, hsnd⟩
      cases hl : lookupConn cmap h0 with
      | some c0 => exact ih cmap h hm2 hnone
      | none =>
        have hnone2 : lookupConn (cmap ++ [(h0, StorageConnection.new h0)]) h = none := by
          have hne : ¬ h0 = h := fun hc => hh hc.symm
          rw [lookupConn_append_none cmap _ h hnone]
          simp [lookupConn, hne]
        exact List.mem_cons_of_mem _ (ih _ h hm2 hnone2)

/-- The loop opens each missing leader address at most once. -/
theorem ensureConnections_opens_nodup :
    ∀ (l : List (Int × HostAddr)) (cmap : List (HostAddr × StorageConnection)),
      (ensureConnections cmap l).2.Nodup := by
  intro l
  induction l with
  | nil => intro cmap; simp [ensureConnections]
  | cons ph rest ih =>
    intro cmap
    obtain ⟨p0, h0⟩ := ph
    simp only [ensureConnections]
    cases hl : lookupConn cmap h0 with
    | some c0 => exact ih cmap
    | none =>
      refine List.nodup_cons.mpr ⟨?_, ih _⟩
      intro hmem
      have h1 := (ensureConnections_opened_missing rest _ h0 hmem).1
      rw [lookupConn_append_none cmap _ h0 hl] at h1
      simp [lookupConn] at h1

/-- When every leader has a connection and every RPC answers, the vertex scan
loop returns one wrapped output per partition, produced from exactly one RPC
per partition carrying the default request. -/
theorem scanVertexExecute_ok (sid : Int) (vp : VertexProp)
    (rpc : StorageConnection → ScanVertexRequest → ScanResponse) (tz : TimezoneInfo) :
    ∀ (l : List (Int × HostAddr)) (cmap : List (HostAddr × StorageConnection)),
      (∀ (p : Int) (h : HostAddr), (p, h) ∈ l → (lookupConn cmap h).isSome) →
      ∃ outs, StorageScanVertexOutput.execute sid (some vp) cmap
          (fun c r => .ok (rpc c r)) tz l = some (.ok outs) ∧
        outs.length = l.length ∧
        ∀ (i : Nat) (p : Int) (h : HostAddr), l.get? i = some (p, h) →
          outs.get? i = (lookupConn cmap h).map
            (fun c => StorageQueryOutput.new
              (rpc c { space_id := sid, parts := [(p, { next_cursor := none })],
                       return_columns := [vp], limit := 1000, start_time := some 0,
                       end_time := some 9223372036854775807, filter := none,
                       only_latest_version := false, enable_read_from_follower := true,
                       common := none }) tz) := by
  intro l
  induction l with
  | nil =>
    intro cmap hcov
    exact ⟨[], rfl, rfl, by intro i p h hi; simp at hi⟩
  | cons ph rest ih =>
    intro cmap hcov
    obtain ⟨p0, h0⟩ := ph
    have hs : (lookupConn cmap h0).isSome := hcov p0 h0 (by simp)
    obtain ⟨c0, hc0⟩ := Option.isSome_iff_exists.mp hs
    obtain ⟨outs, hexec, hlen, hpt⟩ :=
      ih cmap (fun p h hm => hcov p h (List.mem_cons_of_mem _ hm))
    refine ⟨StorageQueryOutput.new
        (rpc c0 { space_id := sid, parts := [(p0, { next_cursor := none })],
                  return_columns := [vp], limit := 1000, start_time := some 0,
                  end_time := some 9223372036854775807, filter := none,
                  only_latest_version := false, enable_read_from_follower := true,
                  common := none }) tz :: outs, ?_, by simp [hlen], ?_⟩
    · simp only [StorageScanVertexOutput.execute]
      rw [hc0, hexec]
    · intro i p h hi
      cases i with
      | zero =>
        simp only [List.get?] at hi
        injection hi with hi2
        have hp : p = p0 := congrArg Prod.fst hi2.symm
        have hh : h = h0 := congrArg Prod.snd hi2.symm
        subst hp
        subst hh
        rw [hc0]
        rfl
      | succ i2 =>
        simp only [List.get?] at hi ⊢
        exact hpt i2 p h hi

/-- The edge analogue of scanVertexExecute_ok. -/
theorem scanEdgeExecute_ok (sid : Int) (ep : EdgeProp)
    (rpc : StorageConnection → ScanEdgeRequest → ScanResponse) (tz : TimezoneInfo) :
    ∀ (l : List (Int × HostAddr)) (cmap : List (HostAddr × StorageConnection)),
      (∀ (p : Int) (h : HostAddr), (p, h) ∈ l → (lookupConn cmap h).isSome) →
      ∃ outs, StorageScanEdgeOutput.execute sid (some ep) cmap
          (fun c r => .ok (rpc c r)) tz l = some (.ok outs) ∧
        outs.length = l.length ∧
        ∀ (i : Nat) (p : Int) (h : HostAddr), l.get? i = some (p, h) →
          outs.get? i = (lookupConn cmap h).map
            (fun c => StorageQueryOutput.new
              (rpc c { space_id := sid, parts := [(p, { next_cursor := none })],
                       return_columns := [ep], limit := 1000, start_time := some 0,
                       end_time := some 9223372036854775807, filter := none,
                       only_latest_version := false, enable_read_from_follower := true,
                       common := none }) tz) := by
  intro l
  induction l with
  | nil =>
    intro cmap hcov
    exact ⟨[], rfl, rfl, by intro i p h hi; simp at hi⟩
  | cons ph rest ih =>
    intro cmap hcov
    obtain ⟨p0, h0⟩ := ph
    have hs : (lookupConn cmap h0).isSome := hcov p0 h0 (by simp)
    obtain ⟨c0, hc0⟩ := Option.isSome_iff_exists.mp hs
    obtain ⟨outs, hexec, hlen, hpt⟩ :=
      ih cmap (fun p h hm => hcov p h (List.mem_cons_of_mem _ hm))
    refine ⟨StorageQueryOutput.new
        (rpc c0 { space_id := sid, parts := [(p0, { next_cursor := none })],
                  return_columns := [ep], limit := 1000, start_time := some 0,
                  end_time := some 9223372036854775807, filter := none,
                  only_latest_version := false, enable_read_from_follower := true,
                  common := none }) tz :: outs, ?_, by simp [hlen], ?_⟩
    · simp only [StorageScanEdgeOutput.execute]
      rw [hc0, hexec]
    · intro i p h hi
      cases i with
      | zero =>
        simp only [List.get?] at hi
        injection hi with hi2
        have hp : p = p0 := congrArg Prod.fst hi2.symm
        have hh : h = h0 := congrArg Prod.snd hi2.symm
        subst hp
        subst hh
        rw [hc0]
        rfl
      | succ i2 =>
        simp only [List.get?] at hi ⊢
        exact hpt i2 p h hi

/-- Claim C5: for every resolved part-to-leader map, the scan fan-out opens at
most one storage connection per distinct leader (none for leaders already
cached, and cached connections are kept), and scan_vertex as well as
scan_edge issue exactly one scan RPC per partition, each carrying an empty
initial cursor, limit 1000, start_time 0, end_time i64 MAX, no filter,
only_latest_version false and enable_read_from_follower true, returning one
wrapped output per partition. -/
theorem StorageClient.scan_fanout_policy (space_id : Int) (vp : VertexProp) (ep : EdgeProp)
    (leader_map : List (Int × HostAddr)) (cmap : List (HostAddr × StorageConnection))
    (rpcV : StorageConnection → ScanVertexRequest → ScanResponse)
    (rpcE : StorageConnection → ScanEdgeRequest → ScanResponse) (tz : TimezoneInfo) :
    ((ensureConnections cmap leader_map).2.Nodup ∧
     (∀ h, h ∈ (ensureConnections cmap leader_map).2 ↔
        (h ∈ leader_map.map Prod.snd ∧ lookupConn cmap h = none)) ∧
     (∀ h c, lookupConn cmap h = some c →
        lookupConn (ensureConnections cmap leader_map).1 h = some c)) ∧
    (∃ outs, (StorageClient.scan_vertex_fanout space_id (some vp) leader_map cmap
        (fun c r => .ok (rpcV c r)) tz).2 = some (.ok outs) ∧
      outs.length = leader_map.length ∧
      ∀ (i : Nat) (p : Int) (h : HostAddr), leader_map.get? i = some (p, h) →
        outs.get? i = (lookupConn (ensureConnections cmap leader_map).1 h).map
          (fun c => StorageQueryOutput.new
            (rpcV c { space_id := space_id, parts := [(p, { next_cursor := none })],
                      return_columns := [vp], limit := 1000, start_time := some 0,
                      end_time := some 9223372036854775807, filter := none,
                      only_latest_version := false, enable_read_from_follower := true,
                      common := none }) tz)) ∧
    (∃ outs, (StorageClient.scan_edge_fanout space_id (some ep) leader_map cmap
        (fun c r => .ok (rpcE c r)) tz).2 = some (.ok outs) ∧
      outs.length = leader_map.length ∧
      ∀ (i : Nat) (p : Int) (h : HostAddr), leader_map.get? i = some (p, h) →
        outs.get? i = (lookupConn (ensureConnections cmap leader_map).1 h).map
          (fun c => StorageQueryOutput.new
            (rpcE c { space_id := space_id, parts := [(p, { next_cursor := none })],
                      return_columns := [ep], limit := 1000, start_time := some 0,
                      end_time := some 9223372036854775807, filter := none,
                      only_latest_version := false, enable_read_from_follower := true,
                      common := none }) tz)) := by
  have hcov : ∀ (p : Int) (h : HostAddr), (p, h) ∈ leader_map →
      (lookupConn (ensureConnections cmap leader_map).1 h).isSome := by
    intro p h hm
    obtain ⟨c, hc⟩ := ensureConnections_covers leader_map cmap p h hm
    rw [hc]
    rfl
  refine ⟨⟨ensureConnections_opens_nodup leader_map cmap, fun h => ?_,
    fun h c hc => ensureConnections_preserves leader_map cmap h c hc⟩, ?_, ?_⟩
  · constructor
    · intro hm
      obtain ⟨h1, h2⟩ := ensureConnections_opened_missing leader_map cmap h hm
      exact ⟨h2, h1⟩
    · intro ⟨hm, hn⟩
      exact ensureConnections_missing_opened leader_map cmap h hm hn
  · exact scanVertexExecute_ok space_id vp rpcV tz leader_map
      (ensureConnections cmap leader_map).1 hcov
  · exact scanEdgeExecute_ok space_id ep rpcE tz leader_map
      (ensureConnections cmap leader_map).1 hcov

/-- Concrete instance of the C5 theorem: partitions 1, 2, 3 led by a, b, a;
two connections are opened and three outputs are returned. -/
theorem StorageClient.scan_fanout_policy_witness :
    ((ensureConnections []
        [(1, { host := "a", port := 1 }), (2, { host := "b", port := 2 }),
         (3, { host := "a", port := 1 })]).2 =
      [{ host := "a", port := 1 }, { host := "b", port := 2 }]) ∧
    (∃ outs, (StorageClient.scan_vertex_fanout 9 (some { tag := 4, props := [] })
        [(1, { host := "a", port := 1 }), (2, { host := "b", port := 2 }),
         (3, { host := "a", port := 1 })] []
        (fun _ _ => .ok { props := none, cursors := [] }) {}).2 = some (.ok outs) ∧
      outs.length = 3) := by
  have h := StorageClient.scan_fanout_policy 9 { tag := 4, props := [] }
    { r_type := 5, props := [] }
    [(1, { host := "a", port := 1 }), (2, { host := "b", port := 2 }),
     (3, { host := "a", port := 1 })] []
    (fun _ _ => { props := none, cursors := [] })
    (fun _ _ => { props := none, cursors := [] }) {}
  refine ⟨by rfl, ?_⟩
  obtain ⟨outs, h1, h2, _⟩ := h.2.1
  exact ⟨outs, h1, by simpa using h2⟩
